import Mathlib

/-!
Shallow embedding of the MiniVSFS tools (`mkfs_builder.c`, `mkfs_adder.c`):
a flat fixed-geometry filesystem image with a superblock, two bitmaps, an
inode table and a data region, at 4096-byte block granularity.

Machine integers are modelled as `Nat`, with explicit `% 2^w` at the points
where the C code can overflow a fixed-width field (u16 link counts, u32
direct pointers and dirent inode numbers, u64 sizes).  In-memory byte
buffers are modelled as total functions `Nat → Nat`; fixed-size on-disk
records are modelled as structures together with their little-endian byte
serialization (`List Nat`), mirroring the packed C structs.
-/

namespace Mkfs

/-- Little-endian serialization of `v` into `w` bytes, as in the packed,
little-endian C structs. -/
def enc (w v : Nat) : List Nat :=
  (List.range w).map (fun i => v / 256 ^ i % 256)

/-- Pad or truncate a byte list to exactly `w` bytes (reading a fixed-size
`char` array that was zero-filled before being written). -/
def padBytes (w : Nat) (xs : List Nat) : List Nat :=
  (List.range w).map (fun i => xs.getD i 0 % 256)

/-! ## ChecksumEngine (crc32_init / crc32, mkfs_builder.c lines 87-127) -/

/-- One shift-xor step of the CRC32 table computation:
`c = (c&1) ? (0xEDB88320 ^ (c>>1)) : (c>>1)`. -/
def crc32_step (c : Nat) : Nat :=
  if c % 2 = 1 then Nat.xor 0xEDB88320 (c / 2) else c / 2

/-- Entry `i` of `CRC32_TAB`: eight `crc32_step` iterations starting from `i`. -/
def crc32_tab (i : Nat) : Nat :=
  crc32_step^[8] i

/-- One byte of the CRC32 loop: `c = CRC32_TAB[(c^p[i])&0xFF] ^ (c>>8)`. -/
def crc32_update (c b : Nat) : Nat :=
  Nat.xor (crc32_tab (Nat.xor c b % 256)) (c / 256)

/-- `crc32(data, n)` over a byte list: initial value `0xFFFFFFFF`, table-driven
update per byte, final xor with `0xFFFFFFFF`. -/
def crc32 (bytes : List Nat) : Nat :=
  Nat.xor (bytes.foldl crc32_update 0xFFFFFFFF) 0xFFFFFFFF

/-- Single-byte XOR checksum: fold of `x ^= p[i]` starting from `0`. -/
def xorBytes (bytes : List Nat) : Nat :=
  bytes.foldl (fun a b => Nat.xor a b) 0

/-! ## On-disk records (packed structs of both tools) -/

/-- The 116-byte packed `superblock_t`. -/
structure Superblock where
  magic : Nat
  version : Nat
  block_size : Nat
  total_blocks : Nat
  inode_count : Nat
  inode_bitmap_start : Nat
  inode_bitmap_blocks : Nat
  data_bitmap_start : Nat
  data_bitmap_blocks : Nat
  inode_table_start : Nat
  inode_table_blocks : Nat
  data_region_start : Nat
  data_region_blocks : Nat
  root_inode : Nat
  mtime_epoch : Nat
  flags : Nat
  checksum : Nat
deriving Repr

/-- Byte serialization of `superblock_t` (little-endian, packed): 116 bytes. -/
def superblockBytes (sb : Superblock) : List Nat :=
  enc 4 sb.magic ++ enc 4 sb.version ++ enc 4 sb.block_size ++
  enc 8 sb.total_blocks ++ enc 8 sb.inode_count ++
  enc 8 sb.inode_bitmap_start ++ enc 8 sb.inode_bitmap_blocks ++
  enc 8 sb.data_bitmap_start ++ enc 8 sb.data_bitmap_blocks ++
  enc 8 sb.inode_table_start ++ enc 8 sb.inode_table_blocks ++
  enc 8 sb.data_region_start ++ enc 8 sb.data_region_blocks ++
  enc 8 sb.root_inode ++ enc 8 sb.mtime_epoch ++
  enc 4 sb.flags ++ enc 4 sb.checksum

/- note: the length facts for these serializations appear with the theorems
further down. -/

/-- The 128-byte packed `inode_t`.  The 12-entry `direct` array is modelled as
a function read only at indices `0..11`. -/
structure Inode where
  mode : Nat
  links : Nat
  uid : Nat
  gid : Nat
  size_bytes : Nat
  atime : Nat
  mtime : Nat
  ctime : Nat
  direct : Nat → Nat
  reserved_0 : Nat
  reserved_1 : Nat
  reserved_2 : Nat
  proj_id : Nat
  uid16_gid16 : Nat
  xattr_ptr : Nat
  inode_crc : Nat

/-- Byte serialization of `inode_t` (little-endian, packed): 128 bytes. -/
def inodeBytes (ino : Inode) : List Nat :=
  enc 2 ino.mode ++ enc 2 ino.links ++ enc 4 ino.uid ++ enc 4 ino.gid ++
  enc 8 ino.size_bytes ++ enc 8 ino.atime ++ enc 8 ino.mtime ++ enc 8 ino.ctime ++
  (List.range 12).flatMap (fun i => enc 4 (ino.direct i)) ++
  enc 4 ino.reserved_0 ++ enc 4 ino.reserved_1 ++ enc 4 ino.reserved_2 ++
  enc 4 ino.proj_id ++ enc 4 ino.uid16_gid16 ++ enc 8 ino.xattr_ptr ++
  enc 8 ino.inode_crc

/-- The 64-byte packed `dirent64_t`.  The `name` field holds the 58 bytes of
the `char name[58]` array. -/
structure Dirent where
  inode_no : Nat
  type : Nat
  name : List Nat
  checksum : Nat
deriving Repr, DecidableEq

/-- Byte serialization of `dirent64_t` (little-endian, packed): 64 bytes. -/
def direntBytes (de : Dirent) : List Nat :=
  enc 4 de.inode_no ++ enc 1 de.type ++ padBytes 58 de.name ++ enc 1 de.checksum

/-! ## Checksum finalization routines -/

/-- Total embedding of `crc32(data, n)` where `data` points at a record of
`bytes.length` bytes: reading past the end of the record is an error. -/
def crc32_bounded (bytes : List Nat) (n : Nat) : Option Nat :=
  if n ≤ bytes.length then some (crc32 (bytes.take n)) else none

/-- Total embedding of `superblock_crc_finalize` (mkfs_builder.c lines
106-111): zero the checksum field, then `crc32((void*)sb, BS - 4)` — a read
of `4096 - 4` bytes starting at the 116-byte record.  Out-of-range reads
surface as `none`. -/
def superblock_crc_finalize (sb : Superblock) : Option Superblock :=
  let sb0 := { sb with checksum := 0 }
  match crc32_bounded (superblockBytes sb0) (4096 - 4) with
  | some s => some { sb0 with checksum := s }
  | none => none

/-- `inode_crc_finalize`: copy the record, zero bytes 120..127, CRC32 the
first 120 bytes, store the result (zero-extended) in `inode_crc`.  The
first 120 bytes of the copy equal the first 120 bytes of the record, so the
CRC is taken directly over those. -/
def inode_crc_finalize (ino : Inode) : Inode :=
  { ino with inode_crc := crc32 ((inodeBytes ino).take 120) }

/-- `dirent_checksum_finalize`: XOR of bytes 0..62 of the record, stored in
the checksum byte (byte 63). -/
def dirent_checksum_finalize (de : Dirent) : Dirent :=
  { de with checksum := xorBytes ((direntBytes de).take 63) }

/-! ## Geometry (mkfs_builder.c main, lines 163-177) -/

structure Geometry where
  total_blocks : Nat
  inode_table_blocks : Nat
  data_region_start : Nat
  data_region_blocks : Nat
deriving Repr, DecidableEq

/-- Validation of `(size_kib, inodes)` as in mkfs_builder.c lines 163-167:
`size_kib` in [180, 4096] and a multiple of 4, `inodes` in [128, 512]. -/
def params_valid (size_kib inodes : Nat) : Bool :=
  !(size_kib < 180 || 4096 < size_kib || inodes < 128 || 512 < inodes ||
    size_kib % 4 != 0)

/-- Geometry computation of mkfs_builder.c lines 163-177, including the
argument validation and the `data_region_blocks < 1` layout check. -/
def compute_geometry (size_kib inodes : Nat) : Option Geometry :=
  if !params_valid size_kib inodes then none
  else
    let total_blocks := size_kib * 1024 / 4096
    let inode_table_blocks := (inodes * 128 + 4096 - 1) / 4096
    let data_region_start := 3 + inode_table_blocks
    let data_region_blocks := total_blocks - data_region_start
    if data_region_blocks < 1 then none
    else some ⟨total_blocks, inode_table_blocks, data_region_start, data_region_blocks⟩

/-! ## In-memory image model

The regions the tools load and persist: both bitmaps as byte buffers, the
inode table at `inode_t` slot granularity (the C code accesses it only
through aligned `inode_t*` casts), and the data region as bytes addressed by
(block index relative to the data region, byte offset in the block). -/

structure Image where
  sb : Superblock
  inode_bitmap : Nat → Nat
  data_bitmap : Nat → Nat
  inode_table : Nat → Inode
  data_region : Nat → Nat → Nat

/-- Bit `i` of a byte-buffer bitmap: `bitmap[i/8] & (1 << (i%8))`. -/
def bitGet (bm : Nat → Nat) (i : Nat) : Bool :=
  (bm (i / 8)).testBit (i % 8)

/-- `bitmap[i/8] |= (1 << (i%8))`. -/
def setBit (bm : Nat → Nat) (i : Nat) : Nat → Nat :=
  fun b => if b = i / 8 then Nat.lor (bm (i / 8)) (2 ^ (i % 8)) else bm b

/-- First index `k` in `[i, i + fuel)` with `p k = true`, scanning upward:
the shape of every `for`-loop-with-break scan in the adder. -/
def findFirst (p : Nat → Bool) (i : Nat) : Nat → Option Nat
  | 0 => none
  | fuel + 1 => if p i then some i else findFirst p (i + 1) fuel

/-- `find_free_data_block`: first clear bit in `[0, count)`. -/
def find_free_data_block (bm : Nat → Nat) (count : Nat) : Option Nat :=
  findFirst (fun i => !bitGet bm i) 0 count

/-- `find_free_inode`: first clear bit in `[0, count)`, exposed 1-based. -/
def find_free_inode (bm : Nat → Nat) (count : Nat) : Option Nat :=
  (find_free_data_block bm count).map (· + 1)

/-- Overwrite dirent slot `i` of a block (bytes `64*i .. 64*i+63`) with the
serialization of `de`: the effect of assigning all fields of
`((dirent64_t*)block)[i]`. -/
def writeDirentAt (blk : Nat → Nat) (i : Nat) (de : Dirent) : Nat → Nat :=
  fun off =>
    if 64 * i ≤ off ∧ off < 64 * i + 64 then (direntBytes de).getD (off - 64 * i) 0
    else blk off

/-- Decode a `dirent64_t` from a byte source (little-endian, packed). -/
def parseDirent (get : Nat → Nat) : Dirent :=
  { inode_no := get 0 + 256 * get 1 + 65536 * get 2 + 16777216 * get 3
    type := get 4
    name := (List.range 58).map (fun j => get (5 + j))
    checksum := get 63 }

/-- Read dirent slot `i` of a block: `((dirent64_t*)block)[i]`. -/
def readDirentAt (blk : Nat → Nat) (i : Nat) : Dirent :=
  parseDirent (fun j => blk (64 * i + j))

/-! ## ImageBuilder (mkfs_builder.c main, lines 179-319) -/

/-- An all-zero `inode_t` slot, as left by `calloc`. -/
def zeroInode : Inode :=
  { mode := 0, links := 0, uid := 0, gid := 0, size_bytes := 0,
    atime := 0, mtime := 0, ctime := 0, direct := fun _ => 0,
    reserved_0 := 0, reserved_1 := 0, reserved_2 := 0, proj_id := 0,
    uid16_gid16 := 0, xattr_ptr := 0, inode_crc := 0 }

/-- The root inode written into slot 0 of the zeroed table
(mkfs_builder.c lines 248-260). -/
def rootInodeInit (now drs : Nat) : Inode :=
  inode_crc_finalize
    { zeroInode with
      mode := 0x4000, links := 2, size_bytes := 2 * 64,
      atime := now, mtime := now, ctime := now,
      direct := fun i => if i = 0 then drs % 2 ^ 32 else 0,
      proj_id := 1234 }

/-- The "." entry (mkfs_builder.c lines 287-290): fields written into a
zeroed slot, then checksum-finalized. -/
def dotEntry : Dirent :=
  dirent_checksum_finalize { inode_no := 1, type := 2, name := padBytes 58 [46], checksum := 0 }

/-- The ".." entry (mkfs_builder.c lines 295-298). -/
def dotdotEntry : Dirent :=
  dirent_checksum_finalize { inode_no := 1, type := 2, name := padBytes 58 [46, 46], checksum := 0 }

/-- The root directory's data block as built: a zeroed block holding the "."
and ".." entries in slots 0 and 1. -/
def builtRootBlock : Nat → Nat :=
  writeDirentAt (writeDirentAt (fun _ => 0) 0 dotEntry) 1 dotdotEntry

/-- The whole build operation (mkfs_builder.c main): validation, geometry,
superblock, bitmaps with bit 0 set, zeroed inode table with the root inode
in slot 0, zeroed data region with "." and ".." in the first block.

The superblock checksum the program stores is the result of
`superblock_crc_finalize`, which reads 3976 bytes past the 116-byte record
(see `sb_crc_finalize_out_of_range`); its value therefore depends on memory
outside the record and is taken here as the parameter `sbCrc`. -/
def buildImage (size_kib inodes now sbCrc : Nat) : Option Image :=
  match compute_geometry size_kib inodes with
  | none => none
  | some g =>
    some
      { sb :=
          { magic := 0x4D565346, version := 1, block_size := 4096,
            total_blocks := g.total_blocks, inode_count := inodes,
            inode_bitmap_start := 1, inode_bitmap_blocks := 1,
            data_bitmap_start := 2, data_bitmap_blocks := 1,
            inode_table_start := 3, inode_table_blocks := g.inode_table_blocks,
            data_region_start := g.data_region_start,
            data_region_blocks := g.data_region_blocks,
            root_inode := 1, mtime_epoch := now, flags := 0, checksum := sbCrc }
        inode_bitmap := fun b => if b = 0 then 1 else 0
        data_bitmap := fun b => if b = 0 then 1 else 0
        inode_table := fun i =>
          if i = 0 then rootInodeInit now g.data_region_start else zeroInode
        data_region := fun b => if b = 0 then builtRootBlock else fun _ => 0 }

/-! ## FileInserter (mkfs_adder.c main, lines 130-404)

Each fatal `exit(EXIT_FAILURE)` branch of the adder becomes an error value;
reaching an error means the output image is never opened or written. -/

inductive InsertError where
  /-- `fread` on the source file content returned short (for a 0-byte file,
  `fread(buf, 0, 1, fp)` returns 0, which the code treats as failure). -/
  | readFailure
  /-- "Invalid file system magic number". -/
  | badMagic
  /-- "Sorry.No free inodes available". -/
  | noFreeInode
  /-- "File too large - exceeds 12 direct blocks". -/
  | fileTooLarge
  /-- "Not enough free data blocks". -/
  | noFreeDataBlock
  /-- "Root directory is full". -/
  | rootDirFull
deriving Repr, DecidableEq

/-- The block-allocation loop (mkfs_adder.c lines 267-279): `n` times, find
the first free data-region bit, record the absolute block number
`data_region_start + free_block` (stored into a `uint32_t` array), and mark
the bit. -/
def allocDataBlocks (n : Nat) (bm : Nat → Nat) (drb drs : Nat) :
    Option ((Nat → Nat) × List Nat) :=
  match n with
  | 0 => some (bm, [])
  | n + 1 =>
    match find_free_data_block bm drb with
    | none => none
    | some fb =>
      match allocDataBlocks n (setBit bm fb) drb drs with
      | none => none
      | some (bm2, rest) => some (bm2, ((drs + fb) % 2 ^ 32) :: rest)

/-- `memcpy(region + b*4096, src + srcOff, len)` with `len ≤ 4096`, at block
granularity: bytes `0 .. len-1` of relative block `b` are replaced. -/
def writeBlock (dr : Nat → Nat → Nat) (b : Nat) (src : List Nat) (srcOff len : Nat) :
    Nat → Nat → Nat :=
  fun blk off => if blk = b ∧ off < len then src.getD (srcOff + off) 0 else dr blk off

/-- The content-copy loop (mkfs_adder.c lines 294-299): for each allocated
block, copy a full 4096-byte chunk, except the final block, which receives
only the remainder `file_size - i*4096`. -/
def writeContent (dr : Nat → Nat → Nat) (blocks : List Nat) (content : List Nat)
    (fsize drs : Nat) : Nat → Nat → Nat :=
  (List.range blocks.length).foldl
    (fun acc i =>
      writeBlock acc (blocks.getD i 0 - drs) content (i * 4096)
        (if i = blocks.length - 1 then fsize - i * 4096 else 4096))
    dr

/-- The new dirent written into the chosen root-directory slot
(mkfs_adder.c lines 352-363): inode number, type 1, name truncated to
57 bytes into the zeroed 58-byte field, checksum-finalized.  `fname` holds
the bytes of the C filename string (up to its first NUL). -/
def newDirent (free_inode : Nat) (fname : List Nat) : Dirent :=
  let nameBytes := fname.takeWhile (fun b => b ≠ 0)
  dirent_checksum_finalize
    { inode_no := free_inode % 2 ^ 32, type := 1,
      name := padBytes 58 (nameBytes.take (min nameBytes.length 57)), checksum := 0 }

/-- The new inode written into table slot `fi - 1` (mkfs_adder.c lines
302-318): mode regular, one link, size and timestamps, the allocated
absolute block numbers in the first `needed_blocks` direct slots and 0 in
the rest, project id 1234, then checksum-finalized.  Fields the adder does
not assign (reserved, uid16_gid16, xattr_ptr) keep whatever the input
image's table slot held. -/
def newInodeFor (img : Image) (content : List Nat) (now fi : Nat)
    (blocks : List Nat) : Inode :=
  let old := img.inode_table (fi - 1)
  inode_crc_finalize
    { old with
      mode := 0x8000, links := 1, uid := 0, gid := 0,
      size_bytes := content.length % 2 ^ 64,
      atime := now % 2 ^ 64, mtime := now % 2 ^ 64, ctime := now % 2 ^ 64,
      direct := fun i =>
        if i < 12 then
          (if i < (content.length + 4096 - 1) / 4096 then blocks.getD i 0 else 0)
        else old.direct i,
      proj_id := 1234 }

/-- The in-memory inode table after the new inode is stored in slot `fi - 1`. -/
def tableWithNew (img : Image) (content : List Nat) (now fi : Nat)
    (blocks : List Nat) : Nat → Inode :=
  fun i => if i = fi - 1 then newInodeFor img content now fi blocks
    else img.inode_table i

/-- `root_inode`: slot 0 of the in-memory table (read after the new inode
was stored, as the C pointer aliasing does). -/
def rootAfterNew (img : Image) (content : List Nat) (now fi : Nat)
    (blocks : List Nat) : Inode :=
  tableWithNew img content now fi blocks 0

/-- `root_data_block = root_inode->direct[0] - sb.data_region_start`. -/
def rootRelBlock (img : Image) (content : List Nat) (now fi : Nat)
    (blocks : List Nat) : Nat :=
  (rootAfterNew img content now fi blocks).direct 0 - img.sb.data_region_start

/-- The in-memory data region after the content-copy loop. -/
def regionAfterCopy (img : Image) (content : List Nat) (blocks : List Nat) :
    Nat → Nat → Nat :=
  writeContent img.data_region blocks content content.length img.sb.data_region_start

/-- The root directory's data block, as the entry scan sees it. -/
def rootBlockAfterCopy (img : Image) (content : List Nat) (now fi : Nat)
    (blocks : List Nat) : Nat → Nat :=
  regionAfterCopy img content blocks (rootRelBlock img content now fi blocks)

/-- `entry_count = root_inode->size_bytes / sizeof(dirent64_t)`. -/
def rootEntryCount (img : Image) (content : List Nat) (now fi : Nat)
    (blocks : List Nat) : Nat :=
  (rootAfterNew img content now fi blocks).size_bytes / 64

/-- The free-slot scan (mkfs_adder.c lines 329-336): first entry index with
inode number 0. -/
def rootScan (img : Image) (content : List Nat) (now fi : Nat)
    (blocks : List Nat) : Option Nat :=
  findFirst
    (fun i => (readDirentAt (rootBlockAfterCopy img content now fi blocks) i).inode_no == 0)
    0 (rootEntryCount img content now fi blocks)

/-- The inode table when the scan found no free slot and a slot is appended:
the root's `size_bytes` grows by 64 and its checksum is re-finalized
(mkfs_adder.c lines 347-349). -/
def grownTable (img : Image) (content : List Nat) (now fi : Nat)
    (blocks : List Nat) : Nat → Inode :=
  fun i =>
    if i = 0 then
      inode_crc_finalize
        { rootAfterNew img content now fi blocks with
          size_bytes := ((rootAfterNew img content now fi blocks).size_bytes + 64) % 2 ^ 64 }
    else tableWithNew img content now fi blocks i

/-- The output image persisted by a successful insert (mkfs_adder.c lines
352-396): the new dirent written at slot `fe` of the root block, the root's
link count incremented and re-finalized, the new inode's bit set, the
superblock written back unchanged. -/
def insertOut (img : Image) (fname content : List Nat) (now fi : Nat)
    (dbm : Nat → Nat) (blocks : List Nat) (fe : Nat) (table2 : Nat → Inode) : Image :=
  let rootblk2 := writeDirentAt (rootBlockAfterCopy img content now fi blocks) fe
    (newDirent fi fname)
  let dr2 := fun b =>
    if b = rootRelBlock img content now fi blocks then rootblk2
    else regionAfterCopy img content blocks b
  let rootF := table2 0
  let root3 := inode_crc_finalize { rootF with links := (rootF.links + 1) % 2 ^ 16 }
  let table3 : Nat → Inode := fun i => if i = 0 then root3 else table2 i
  { sb := img.sb, inode_bitmap := setBit img.inode_bitmap (fi - 1), data_bitmap := dbm,
    inode_table := table3, data_region := dr2 }

/-- The insert steps from the content copy onward (mkfs_adder.c lines
294-396), after inode and data-block allocation succeeded. -/
def insertCore (img : Image) (fname content : List Nat) (now fi : Nat)
    (dbm : Nat → Nat) (blocks : List Nat) : Except InsertError Image :=
  match rootScan img content now fi blocks with
  | some e =>
    .ok (insertOut img fname content now fi dbm blocks e
      (tableWithNew img content now fi blocks))
  | none =>
    if 64 ≤ rootEntryCount img content now fi blocks then .error .rootDirFull
    else
      .ok (insertOut img fname content now fi dbm blocks
        (rootEntryCount img content now fi blocks)
        (grownTable img content now fi blocks))

/-- The whole insert operation (mkfs_adder.c main): magic check, inode
allocation, size check, data-block allocation, then `insertCore`.  An
`Except.error` is a fatal exit before any output byte is written. -/
def insertFile (img : Image) (fname content : List Nat) (now : Nat) :
    Except InsertError Image :=
  if img.sb.magic ≠ 0x4D565346 then .error .badMagic
  else
    match find_free_inode img.inode_bitmap img.sb.inode_count with
    | none => .error .noFreeInode
    | some free_inode =>
      if 12 < (content.length + 4096 - 1) / 4096 then .error .fileTooLarge
      else
        match allocDataBlocks ((content.length + 4096 - 1) / 4096) img.data_bitmap
            img.sb.data_region_blocks img.sb.data_region_start with
        | none => .error .noFreeDataBlock
        | some (dbm, blocks) =>
          if content.length = 0 then .error .readFailure
          else insertCore img fname content now free_inode dbm blocks

/-- Repeatedly run `insertFile` with the same one-byte file and one-letter
name, propagating the first failure. -/
def iterInsert (fname content : List Nat) : Nat → Except InsertError Image →
    Except InsertError Image
  | 0, st => st
  | k + 1, st =>
    match st with
    | .error e => .error e
    | .ok img => iterInsert fname content k (insertFile img fname content 0)

/-- A trivially empty image, used only to totalize `Option`/`Except`
projections on concrete values. -/
def emptyImage : Image :=
  { sb := { magic := 0, version := 0, block_size := 0, total_blocks := 0,
            inode_count := 0, inode_bitmap_start := 0, inode_bitmap_blocks := 0,
            data_bitmap_start := 0, data_bitmap_blocks := 0, inode_table_start := 0,
            inode_table_blocks := 0, data_region_start := 0, data_region_blocks := 0,
            root_inode := 0, mtime_epoch := 0, flags := 0, checksum := 0 },
    inode_bitmap := fun _ => 0, data_bitmap := fun _ => 0,
    inode_table := fun _ => zeroInode, data_region := fun _ _ => 0 }

def imgOf (o : Option Image) : Image := o.getD emptyImage

def okImgOf (e : Except InsertError Image) : Image :=
  match e with
  | .ok i => i
  | .error _ => emptyImage

def isOk (e : Except InsertError Image) : Bool :=
  match e with
  | .ok _ => true
  | .error _ => false

/-- A bitmap whose set bits are exactly `[0, m)`. -/
def isPref (bm : Nat → Nat) (m : Nat) : Prop :=
  ∀ j, bitGet bm j = decide (j < m)

/-- Reading back a dirent written by struct-field assignment yields its
fields reduced to their stored widths. -/
def canonDirent (de : Dirent) : Dirent :=
  { inode_no := de.inode_no % 2 ^ 32, type := de.type % 256,
    name := padBytes 58 de.name, checksum := de.checksum % 256 }

/-- `total_blocks` for a given `size_kib`. -/
def gTotal (sk : Nat) : Nat := sk * 1024 / 4096

/-- `inode_table_blocks` for a given inode count. -/
def gItb (ic : Nat) : Nat := (ic * 128 + 4096 - 1) / 4096

/-- `data_region_start` for a given inode count. -/
def gDrs (ic : Nat) : Nat := 3 + gItb ic

/-- `data_region_blocks` for a given pair. -/
def gDrb (sk ic : Nat) : Nat := gTotal sk - gDrs ic

/-- The image `buildImage` produces on valid parameters, in explicit form. -/
def freshImage (sk ic now sbCrc : Nat) : Image :=
  { sb :=
      { magic := 0x4D565346, version := 1, block_size := 4096,
        total_blocks := gTotal sk, inode_count := ic,
        inode_bitmap_start := 1, inode_bitmap_blocks := 1,
        data_bitmap_start := 2, data_bitmap_blocks := 1,
        inode_table_start := 3, inode_table_blocks := gItb ic,
        data_region_start := gDrs ic, data_region_blocks := gDrb sk ic,
        root_inode := 1, mtime_epoch := now, flags := 0, checksum := sbCrc }
    inode_bitmap := fun b => if b = 0 then 1 else 0
    data_bitmap := fun b => if b = 0 then 1 else 0
    inode_table := fun i => if i = 0 then rootInodeInit now (gDrs ic) else zeroInode
    data_region := fun b => if b = 0 then builtRootBlock else fun _ => 0 }

/-- Run `insertFile` once per listed file (name, content, time), stopping at
the first failure, as consecutive tool invocations would. -/
def insertSeq (st : Except InsertError Image) :
    List (List Nat × List Nat × Nat) → Except InsertError Image
  | [] => st
  | f :: rest =>
    match st with
    | .error e => .error e
    | .ok img => insertSeq (insertFile img f.1 f.2.1 f.2.2) rest

/-- State invariant after `k` one-block files have been inserted into a
fresh image whose superblock is `sb` and whose data region starts at block
`drs`: bits `0..k` of both bitmaps are the allocated ones, the root inode
carries `2 + k` links and `2 + k` directory entries, its first direct
pointer still aims at the data region's first block, and every entry in use
has a nonzero inode number. -/
def rootInv (drs : Nat) (sb : Superblock) (k : Nat) (st : Image) : Prop :=
  st.sb = sb ∧
  (∀ j, bitGet st.inode_bitmap j = decide (j < k + 1)) ∧
  (∀ j, bitGet st.data_bitmap j = decide (j < k + 1)) ∧
  (st.inode_table 0).links = 2 + k ∧
  (st.inode_table 0).size_bytes = 128 + 64 * k ∧
  (st.inode_table 0).direct 0 = drs ∧
  (∀ i, i < 2 + k → (readDirentAt (st.data_region 0) i).inode_no ≠ 0)

/-- A 180 KiB, 128-inode image as built with `--size-kib 180 --inodes 128`
(geometry: 45 total blocks, 4 inode-table blocks, data region at block 7
with 38 blocks). -/
def img180 : Image := imgOf (buildImage 180 128 0 0)

/-- A 1024 KiB, 128-inode image (249 data-region blocks), roomy enough to
exhaust the root directory before any other resource. -/
def fresh1024 : Image := imgOf (buildImage 1024 128 0 0)

/-- The image produced by inserting the 1-byte file `[1]` named "a" into
`img180`. -/
def out180 : Image := okImgOf (insertFile img180 [97] [1] 0)

/-- A 49153-byte file: one byte over the 12-direct-block limit. -/
def bigFile : List Nat := List.replicate 49153 0

/-! ## Theorems.  Serialization lengths -/

theorem enc_length (w v : Nat) : (enc w v).length = w := by
  simp [enc]

theorem padBytes_length (w : Nat) (xs : List Nat) : (padBytes w xs).length = w := by
  simp [padBytes]

theorem superblockBytes_length (sb : Superblock) : (superblockBytes sb).length = 116 := by
  simp [superblockBytes, enc_length]

theorem inodeBytes_length (ino : Inode) : (inodeBytes ino).length = 128 := by
  have h12 : List.range 12 = [0, 1, 2, 3, 4, 5, 6, 7, 8, 9, 10, 11] := by rfl
  simp [inodeBytes, h12, enc_length]

theorem direntBytes_length (de : Dirent) : (direntBytes de).length = 64 := by
  simp [direntBytes, enc_length, padBytes_length]

/-! ## Toolkit: scan characterization -/

theorem findFirst_eq_none_iff (p : Nat → Bool) (i fuel : Nat) :
    findFirst p i fuel = none ↔ ∀ k, i ≤ k → k < i + fuel → p k = false := by
  induction fuel generalizing i with
  | zero =>
    simp only [findFirst]
    exact ⟨fun _ k hk1 hk2 => absurd hk2 (by omega), fun _ => trivial⟩
  | succ n ih =>
    cases hpi : p i with
    | true =>
      simp only [findFirst, hpi, if_true]
      constructor
      · intro h; cases h
      · intro h
        have := h i (Nat.le_refl i) (by omega)
        rw [hpi] at this; cases this
    | false =>
      simp only [findFirst, hpi, Bool.false_eq_true, if_false, ih]
      constructor
      · intro h k hk1 hk2
        rcases Nat.eq_or_lt_of_le hk1 with rfl | hlt
        · exact hpi
        · exact h k hlt (by omega)
      · intro h k hk1 hk2
        exact h k (by omega) (by omega)

theorem findFirst_eq_some_iff (p : Nat → Bool) (i fuel r : Nat) :
    findFirst p i fuel = some r ↔
      (i ≤ r ∧ r < i + fuel ∧ p r = true ∧ ∀ k, i ≤ k → k < r → p k = false) := by
  induction fuel generalizing i with
  | zero =>
    simp only [findFirst]
    constructor
    · intro h; cases h
    · rintro ⟨h1, h2, _, _⟩; omega
  | succ n ih =>
    cases hpi : p i with
    | true =>
      simp only [findFirst, hpi, if_true]
      constructor
      · intro h
        have hr : i = r := by injection h
        subst hr
        exact ⟨Nat.le_refl i, by omega, hpi, fun k hk1 hk2 => absurd hk2 (by omega)⟩
      · rintro ⟨h1, _, h3, h4⟩
        rcases Nat.eq_or_lt_of_le h1 with rfl | hlt
        · rfl
        · have := h4 i (Nat.le_refl i) hlt
          rw [hpi] at this; cases this
    | false =>
      simp only [findFirst, hpi, Bool.false_eq_true, if_false, ih]
      constructor
      · rintro ⟨h1, h2, h3, h4⟩
        refine ⟨by omega, by omega, h3, ?_⟩
        intro k hk1 hk2
        rcases Nat.eq_or_lt_of_le hk1 with rfl | hlt
        · exact hpi
        · exact h4 k hlt hk2
      · rintro ⟨h1, h2, h3, h4⟩
        have hir : i ≠ r := by
          rintro rfl; rw [hpi] at h3; cases h3
        exact ⟨by omega, by omega, h3, fun k hk1 hk2 => h4 k (by omega) hk2⟩

/-! ## Toolkit: bitmaps -/

theorem bitGet_setBit (bm : Nat → Nat) (i j : Nat) :
    bitGet (setBit bm i) j = (bitGet bm j || decide (j = i)) := by
  unfold bitGet setBit
  by_cases h : j / 8 = i / 8
  · rw [if_pos h, h]
    show ((bm (i / 8)) ||| 2 ^ (i % 8)).testBit (j % 8) = _
    rw [Nat.testBit_lor, Nat.testBit_two_pow]
    have : (i % 8 = j % 8) = (j = i) := by
      apply propext
      constructor
      · intro hm; omega
      · intro hj; omega
    simp [this]
  · rw [if_neg h]
    have : (j = i) = False := by
      apply propext; constructor
      · intro hj; exact h (by omega)
      · intro hf; cases hf
    simp [this]

/-- The bitmaps a fresh build writes: byte 0 is `0x01`, all others zero. -/
theorem bitGet_freshBitmap (j : Nat) :
    bitGet (fun b => if b = 0 then 1 else 0) j = decide (j < 1) := by
  have hb : bitGet (fun b => if b = 0 then 1 else 0) j
      = (if j / 8 = 0 then (1 : Nat) else 0).testBit (j % 8) := rfl
  rw [hb]
  by_cases h : j / 8 = 0
  · rw [if_pos h]
    have h1 : (1 : Nat) = 2 ^ 0 := rfl
    rw [h1, Nat.testBit_two_pow, decide_eq_decide]
    have h2 : (2 : Nat) ^ 0 = 1 := rfl
    rw [h2]
    omega
  · rw [if_neg h, Nat.zero_testBit]
    have h2 : ¬(j < 1) := by omega
    simp [h2]

theorem isPref_fresh : isPref (fun b => if b = 0 then 1 else 0) 1 :=
  bitGet_freshBitmap

theorem isPref_setBit {bm : Nat → Nat} {m : Nat} (h : isPref bm m) :
    isPref (setBit bm m) (m + 1) := by
  intro j
  rw [bitGet_setBit, h j]
  by_cases h1 : j < m
  · simp [h1, show j < m + 1 by omega]
  · by_cases h2 : j = m
    · simp [h2]
    · simp [h1, h2, show ¬(j < m + 1) by omega]

theorem find_free_data_block_pref {bm : Nat → Nat} {m count : Nat}
    (h : isPref bm m) (hm : m < count) :
    find_free_data_block bm count = some m := by
  unfold find_free_data_block
  rw [findFirst_eq_some_iff]
  refine ⟨Nat.zero_le m, by omega, ?_, ?_⟩
  · rw [h m]; simp
  · intro k _ hk
    rw [h k]; simp; omega

theorem allocDataBlocks_pref {drb drs : Nat} :
    ∀ (n : Nat) (bm : Nat → Nat) (m : Nat), isPref bm m → m + n ≤ drb →
      ∃ bm2, allocDataBlocks n bm drb drs =
          some (bm2, (List.range n).map (fun k => (drs + (m + k)) % 2 ^ 32)) ∧
        isPref bm2 (m + n) := by
  intro n
  induction n with
  | zero =>
    intro bm m h _
    exact ⟨bm, by simp [allocDataBlocks], by simpa using h⟩
  | succ n ih =>
    intro bm m h hle
    have hfind : find_free_data_block bm drb = some m :=
      @find_free_data_block_pref bm m drb h (by omega)
    obtain ⟨bm2, heq, hpref⟩ := ih (setBit bm m) (m + 1) (isPref_setBit h) (by omega)
    have hpref2 : isPref bm2 (m + (n + 1)) := by
      have hmn : m + 1 + n = m + (n + 1) := by omega
      rwa [hmn] at hpref
    refine ⟨bm2, ?_, hpref2⟩
    have hlist : (List.range (n + 1)).map (fun k => (drs + (m + k)) % 2 ^ 32)
        = ((drs + (m + 0)) % 2 ^ 32) ::
          (List.range n).map (fun k => (drs + (m + 1 + k)) % 2 ^ 32) := by
      rw [List.range_succ_eq_map, List.map_cons, List.map_map]
      refine congrArg _ ?_
      apply List.map_congr_left
      intro a _
      simp only [Function.comp]
      have hma : m + (a + 1) = m + 1 + a := by omega
      simp [Nat.succ_eq_add_one, hma]
    simp only [allocDataBlocks, hfind, heq, hlist, Nat.add_zero]

/-! ## Toolkit: byte indexing of serializations -/

theorem enc_getD (w v j : Nat) :
    (enc w v).getD j 0 = if j < w then v / 256 ^ j % 256 else 0 := by
  unfold enc
  rw [List.getD_eq_getElem?_getD]
  by_cases h : j < w
  · rw [List.getElem?_map, List.getElem?_range h]
    simp [h]
  · rw [List.getElem?_map]
    have : (List.range w)[j]? = none := by
      rw [List.getElem?_eq_none]
      simpa using Nat.le_of_not_lt h
    simp [this, h]

theorem padBytes_getD (w j : Nat) (xs : List Nat) :
    (padBytes w xs).getD j 0 = if j < w then xs.getD j 0 % 256 else 0 := by
  unfold padBytes
  rw [List.getD_eq_getElem?_getD]
  by_cases h : j < w
  · rw [List.getElem?_map, List.getElem?_range h]
    simp [h]
  · rw [List.getElem?_map]
    have : (List.range w)[j]? = none := by
      rw [List.getElem?_eq_none]
      simpa using Nat.le_of_not_lt h
    simp [this, h]

theorem direntBytes_getD (de : Dirent) (j : Nat) :
    (direntBytes de).getD j 0 =
      if j < 4 then de.inode_no / 256 ^ j % 256
      else if j = 4 then de.type % 256
      else if j < 63 then de.name.getD (j - 5) 0 % 256
      else if j = 63 then de.checksum % 256
      else 0 := by
  have hlen2 : (enc 4 de.inode_no ++ enc 1 de.type).length = 5 := by
    simp [enc_length]
  have hlen1 : (enc 4 de.inode_no ++ enc 1 de.type ++ padBytes 58 de.name).length = 63 := by
    simp [enc_length, padBytes_length]
  unfold direntBytes
  by_cases h63 : j < 63
  · rw [List.getD_append _ _ _ _ (by rw [hlen1]; exact h63)]
    by_cases h5 : j < 5
    · rw [List.getD_append _ _ _ _ (by rw [hlen2]; exact h5)]
      by_cases h4 : j < 4
      · rw [List.getD_append _ _ _ _ (by rw [enc_length]; exact h4)]
        rw [enc_getD, if_pos h4, if_pos h4]
      · have hj : j = 4 := by omega
        subst hj
        rw [List.getD_append_right _ _ _ _ (by rw [enc_length]), enc_length]
        have he : enc 1 de.type = [de.type % 256] := by
          have hr : List.range 1 = [0] := rfl
          simp [enc, hr]
        simp [he]
    · rw [List.getD_append_right _ _ _ _ (by rw [hlen2]; omega), hlen2, padBytes_getD]
      simp [show j - 5 < 58 by omega, show ¬(j < 4) by omega, show j ≠ 4 by omega, h63]
  · rw [List.getD_append_right _ _ _ _ (by rw [hlen1]; omega), hlen1, enc_getD]
    by_cases h64 : j = 63
    · subst h64
      norm_num
    · simp [show ¬(j - 63 < 1) by omega, show ¬(j < 4) by omega, show j ≠ 4 by omega,
        h63, h64]

/-! ## Toolkit: dirent slots in block memory -/

theorem readDirentAt_writeDirentAt_self (blk : Nat → Nat) (i : Nat) (de : Dirent) :
    readDirentAt (writeDirentAt blk i de) i = canonDirent de := by
  have hw : ∀ j, j < 64 → writeDirentAt blk i de (64 * i + j) = (direntBytes de).getD j 0 := by
    intro j hj
    unfold writeDirentAt
    rw [if_pos ⟨by omega, by omega⟩]
    congr 1
    omega
  have h0 : (direntBytes de).getD 0 0 = de.inode_no % 256 := by
    rw [direntBytes_getD]; norm_num
  have h1 : (direntBytes de).getD 1 0 = de.inode_no / 256 % 256 := by
    rw [direntBytes_getD]; norm_num
  have h2 : (direntBytes de).getD 2 0 = de.inode_no / 65536 % 256 := by
    rw [direntBytes_getD]; norm_num
  have h3 : (direntBytes de).getD 3 0 = de.inode_no / 16777216 % 256 := by
    rw [direntBytes_getD]; norm_num
  have h4 : (direntBytes de).getD 4 0 = de.type % 256 := by
    rw [direntBytes_getD]; norm_num
  have h63 : (direntBytes de).getD 63 0 = de.checksum % 256 := by
    rw [direntBytes_getD]; norm_num
  unfold readDirentAt parseDirent canonDirent
  simp only [Dirent.mk.injEq]
  refine ⟨?_, ?_, ?_, ?_⟩
  · rw [hw 0 (by omega), hw 1 (by omega), hw 2 (by omega), hw 3 (by omega),
      h0, h1, h2, h3]
    have hp : (2 : Nat) ^ 32 = 4294967296 := by norm_num
    rw [hp]
    omega
  · rw [hw 4 (by omega), h4]
  · unfold padBytes
    apply List.map_congr_left
    intro a ha
    have ha58 : a < 58 := List.mem_range.mp ha
    rw [hw (5 + a) (by omega), direntBytes_getD]
    simp [show ¬(5 + a < 4) by omega, show 5 + a ≠ 4 by omega, show 5 + a < 63 by omega,
      show 5 + a - 5 = a by omega]
  · rw [hw 63 (by omega), h63]

theorem readDirentAt_writeDirentAt_ne (blk : Nat → Nat) (i j : Nat) (de : Dirent)
    (hij : j ≠ i) :
    readDirentAt (writeDirentAt blk i de) j = readDirentAt blk j := by
  have hw : ∀ k, k < 64 → writeDirentAt blk i de (64 * j + k) = blk (64 * j + k) := by
    intro k hk
    unfold writeDirentAt
    rw [if_neg]
    rintro ⟨ha, hb⟩
    omega
  unfold readDirentAt parseDirent
  simp only [Dirent.mk.injEq]
  refine ⟨?_, ?_, ?_, ?_⟩
  · rw [hw 0 (by omega), hw 1 (by omega), hw 2 (by omega), hw 3 (by omega)]
  · rw [hw 4 (by omega)]
  · apply List.map_congr_left
    intro a ha
    have ha58 : a < 58 := List.mem_range.mp ha
    rw [hw (5 + a) (by omega)]
  · rw [hw 63 (by omega)]

theorem direntBytes_mem_lt (de : Dirent) : ∀ b ∈ direntBytes de, b < 256 := by
  intro b hb
  simp only [direntBytes, List.mem_append, enc, padBytes, List.mem_map,
    List.mem_range] at hb
  rcases hb with (((⟨i, _, rfl⟩ | ⟨i, _, rfl⟩) | ⟨i, _, rfl⟩) | ⟨i, _, rfl⟩) <;> omega

theorem xorBytes_lt (l : List Nat) (h : ∀ b ∈ l, b < 256) : xorBytes l < 256 := by
  have haux : ∀ (l2 : List Nat) (a : Nat), a < 256 → (∀ b ∈ l2, b < 256) →
      l2.foldl (fun x y => Nat.xor x y) a < 256 := by
    intro l2
    induction l2 with
    | nil => intro a ha _; exact ha
    | cons x xs ih =>
      intro a ha h2
      rw [List.foldl_cons]
      refine ih _ ?_ (fun b hb => h2 b (List.mem_cons_of_mem _ hb))
      have h256 : (256 : Nat) = 2 ^ 8 := by norm_num
      rw [h256] at ha ⊢
      exact Nat.xor_lt_two_pow ha (h256 ▸ h2 x (List.mem_cons_self _ _))
  exact haux l 0 (by omega) h

/-- The checksum stored by `dirent_checksum_finalize` is a single byte. -/
theorem dirent_checksum_lt (de : Dirent) :
    (dirent_checksum_finalize de).checksum < 256 := by
  unfold dirent_checksum_finalize
  exact xorBytes_lt _ (fun b hb => direntBytes_mem_lt de b (List.take_subset _ _ hb))

theorem padBytes_idem (w : Nat) (xs : List Nat) :
    padBytes w (padBytes w xs) = padBytes w xs := by
  unfold padBytes
  apply List.map_congr_left
  intro a ha
  have haw : a < w := List.mem_range.mp ha
  rw [show ((List.range w).map (fun i => xs.getD i 0 % 256)).getD a 0
      = xs.getD a 0 % 256 from ?_]
  · simp [Nat.mod_mod_of_dvd]
  · have := padBytes_getD w a xs
    unfold padBytes at this
    rw [this, if_pos haw]

/-- `newDirent` is stored and read back unchanged. -/
theorem canonDirent_newDirent (fi : Nat) (fname : List Nat) :
    canonDirent (newDirent fi fname) = newDirent fi fname := by
  unfold canonDirent newDirent dirent_checksum_finalize
  simp only [Dirent.mk.injEq]
  refine ⟨Nat.mod_mod_of_dvd _ dvd_rfl, by norm_num, padBytes_idem _ _, ?_⟩
  apply Nat.mod_eq_of_lt
  exact xorBytes_lt _ (fun b hb => direntBytes_mem_lt _ b (List.take_subset _ _ hb))

/-! ## Toolkit: content-copy frame -/

theorem writeBlock_ne (dr : Nat → Nat → Nat) (b : Nat) (src : List Nat)
    (so len blk off : Nat) (h : blk ≠ b) :
    writeBlock dr b src so len blk off = dr blk off := by
  unfold writeBlock
  rw [if_neg]
  rintro ⟨h1, _⟩
  exact h h1

theorem foldl_writeBlock_ne (content : List Nat) (g lenf : Nat → Nat) (b off : Nat) :
    ∀ (l : List Nat) (dr : Nat → Nat → Nat), (∀ i ∈ l, g i ≠ b) →
      (l.foldl (fun acc i => writeBlock acc (g i) content (i * 4096) (lenf i)) dr) b off
        = dr b off := by
  intro l
  induction l with
  | nil => intro dr _; rfl
  | cons x xs ih =>
    intro dr h
    rw [List.foldl_cons, ih _ (fun i hi => h i (List.mem_cons_of_mem _ hi))]
    exact writeBlock_ne _ _ _ _ _ _ _ (h x (List.mem_cons_self _ _)).symm

/-- Blocks the content copy does not target are untouched. -/
theorem writeContent_ne (dr : Nat → Nat → Nat) (blocks content : List Nat)
    (fs drs b off : Nat)
    (hb : ∀ i, i < blocks.length → blocks.getD i 0 - drs ≠ b) :
    writeContent dr blocks content fs drs b off = dr b off := by
  unfold writeContent
  exact foldl_writeBlock_ne content _ _ b off (List.range blocks.length) dr
    (fun i hi => hb i (List.mem_range.mp hi))

/-! ## Toolkit: plumbing of `insertFile` -/

theorem insertFile_eq_core (img : Image) (fname content : List Nat) (now fi : Nat)
    (dbm : Nat → Nat) (blocks : List Nat)
    (hmagic : img.sb.magic = 0x4D565346)
    (hfi : find_free_inode img.inode_bitmap img.sb.inode_count = some fi)
    (hneed : (content.length + 4096 - 1) / 4096 ≤ 12)
    (halloc : allocDataBlocks ((content.length + 4096 - 1) / 4096) img.data_bitmap
      img.sb.data_region_blocks img.sb.data_region_start = some (dbm, blocks))
    (hsz : content.length ≠ 0) :
    insertFile img fname content now = insertCore img fname content now fi dbm blocks := by
  unfold insertFile
  rw [if_neg (by simp [hmagic])]
  simp only [hfi, halloc]
  rw [if_neg (by omega), if_neg hsz]

theorem insertCore_scan_some (img : Image) (fname content : List Nat) (now fi : Nat)
    (dbm : Nat → Nat) (blocks : List Nat) (e : Nat)
    (hscan : rootScan img content now fi blocks = some e) :
    insertCore img fname content now fi dbm blocks
      = .ok (insertOut img fname content now fi dbm blocks e
          (tableWithNew img content now fi blocks)) := by
  unfold insertCore
  rw [hscan]

theorem insertCore_scan_none_full (img : Image) (fname content : List Nat) (now fi : Nat)
    (dbm : Nat → Nat) (blocks : List Nat)
    (hscan : rootScan img content now fi blocks = none)
    (hec : 64 ≤ rootEntryCount img content now fi blocks) :
    insertCore img fname content now fi dbm blocks = .error .rootDirFull := by
  unfold insertCore
  rw [hscan]
  simp only [if_pos hec]

theorem insertCore_scan_none_append (img : Image) (fname content : List Nat)
    (now fi : Nat) (dbm : Nat → Nat) (blocks : List Nat)
    (hscan : rootScan img content now fi blocks = none)
    (hec : rootEntryCount img content now fi blocks < 64) :
    insertCore img fname content now fi dbm blocks
      = .ok (insertOut img fname content now fi dbm blocks
          (rootEntryCount img content now fi blocks)
          (grownTable img content now fi blocks)) := by
  unfold insertCore
  rw [hscan]
  simp only [if_neg (by omega : ¬64 ≤ rootEntryCount img content now fi blocks)]

theorem insertOut_sb (img : Image) (fname content : List Nat) (now fi : Nat)
    (dbm : Nat → Nat) (blocks : List Nat) (fe : Nat) (t2 : Nat → Inode) :
    (insertOut img fname content now fi dbm blocks fe t2).sb = img.sb := rfl

theorem insertOut_inode_table_ne (img : Image) (fname content : List Nat) (now fi : Nat)
    (dbm : Nat → Nat) (blocks : List Nat) (fe : Nat) (t2 : Nat → Inode) (i : Nat)
    (hi : i ≠ 0) :
    (insertOut img fname content now fi dbm blocks fe t2).inode_table i = t2 i := by
  unfold insertOut
  simp [hi]

theorem insertOut_inode_table_zero (img : Image) (fname content : List Nat) (now fi : Nat)
    (dbm : Nat → Nat) (blocks : List Nat) (fe : Nat) (t2 : Nat → Inode) :
    (insertOut img fname content now fi dbm blocks fe t2).inode_table 0
      = inode_crc_finalize { t2 0 with links := ((t2 0).links + 1) % 2 ^ 16 } := by
  unfold insertOut
  simp

theorem insertOut_data_region_ne (img : Image) (fname content : List Nat) (now fi : Nat)
    (dbm : Nat → Nat) (blocks : List Nat) (fe : Nat) (t2 : Nat → Inode) (b : Nat)
    (hb : b ≠ rootRelBlock img content now fi blocks) :
    (insertOut img fname content now fi dbm blocks fe t2).data_region b
      = regionAfterCopy img content blocks b := by
  unfold insertOut
  simp [hb]

theorem insertOut_data_region_root (img : Image) (fname content : List Nat) (now fi : Nat)
    (dbm : Nat → Nat) (blocks : List Nat) (fe : Nat) (t2 : Nat → Inode) :
    (insertOut img fname content now fi dbm blocks fe t2).data_region
        (rootRelBlock img content now fi blocks)
      = writeDirentAt (rootBlockAfterCopy img content now fi blocks) fe
          (newDirent fi fname) := by
  unfold insertOut
  simp

theorem insertOut_inode_bitmap (img : Image) (fname content : List Nat) (now fi : Nat)
    (dbm : Nat → Nat) (blocks : List Nat) (fe : Nat) (t2 : Nat → Inode) :
    (insertOut img fname content now fi dbm blocks fe t2).inode_bitmap
      = setBit img.inode_bitmap (fi - 1) := rfl

theorem insertOut_data_bitmap (img : Image) (fname content : List Nat) (now fi : Nat)
    (dbm : Nat → Nat) (blocks : List Nat) (fe : Nat) (t2 : Nat → Inode) :
    (insertOut img fname content now fi dbm blocks fe t2).data_bitmap = dbm := rfl

theorem tableWithNew_ne (img : Image) (content : List Nat) (now fi : Nat)
    (blocks : List Nat) (i : Nat) (hi : i ≠ fi - 1) :
    tableWithNew img content now fi blocks i = img.inode_table i := by
  unfold tableWithNew
  simp [hi]

theorem grownTable_ne (img : Image) (content : List Nat) (now fi : Nat)
    (blocks : List Nat) (i : Nat) (h0 : i ≠ 0) (hi : i ≠ fi - 1) :
    grownTable img content now fi blocks i = img.inode_table i := by
  unfold grownTable
  rw [if_neg h0]
  exact tableWithNew_ne img content now fi blocks i hi

/-- Every `Except.ok` produced by `insertFile` is an `insertOut`. -/
theorem insertFile_ok_cases (img : Image) (fname content : List Nat) (now : Nat)
    (out : Image) (h : insertFile img fname content now = .ok out) :
    ∃ fi dbm blocks fe t2,
      find_free_inode img.inode_bitmap img.sb.inode_count = some fi ∧
      allocDataBlocks ((content.length + 4096 - 1) / 4096) img.data_bitmap
        img.sb.data_region_blocks img.sb.data_region_start = some (dbm, blocks) ∧
      (t2 = tableWithNew img content now fi blocks ∨
        t2 = grownTable img content now fi blocks) ∧
      out = insertOut img fname content now fi dbm blocks fe t2 := by
  unfold insertFile at h
  by_cases hm : img.sb.magic ≠ 0x4D565346
  · rw [if_pos hm] at h; cases h
  · rw [if_neg hm] at h
    cases hfi : find_free_inode img.inode_bitmap img.sb.inode_count with
    | none => rw [hfi] at h; cases h
    | some fi =>
      simp only [hfi] at h
      by_cases hn : 12 < (content.length + 4096 - 1) / 4096
      · rw [if_pos hn] at h; cases h
      · rw [if_neg hn] at h
        cases halloc : allocDataBlocks ((content.length + 4096 - 1) / 4096)
            img.data_bitmap img.sb.data_region_blocks img.sb.data_region_start with
        | none => rw [halloc] at h; cases h
        | some pr =>
          obtain ⟨dbm, blocks⟩ := pr
          simp only [halloc] at h
          by_cases hz : content.length = 0
          · rw [if_pos hz] at h; cases h
          · rw [if_neg hz] at h
            unfold insertCore at h
            cases hscan : rootScan img content now fi blocks with
            | some e =>
              rw [hscan] at h
              injection h with h2
              exact ⟨fi, dbm, blocks, e, tableWithNew img content now fi blocks,
                rfl, rfl, Or.inl rfl, h2.symm⟩
            | none =>
              rw [hscan] at h
              by_cases hec : 64 ≤ rootEntryCount img content now fi blocks
              · simp only [if_pos hec] at h; cases h
              · simp only [if_neg hec] at h
                injection h with h2
                exact ⟨fi, dbm, blocks, rootEntryCount img content now fi blocks,
                  grownTable img content now fi blocks, rfl, rfl, Or.inr rfl, h2.symm⟩

/-! ## Toolkit: geometry and fresh images -/

theorem params_valid_of_bounds {sk ic : Nat} (h1 : 180 ≤ sk) (h2 : sk ≤ 4096)
    (h3 : sk % 4 = 0) (h4 : 128 ≤ ic) (h5 : ic ≤ 512) :
    params_valid sk ic = true := by
  unfold params_valid
  simp only [Bool.not_eq_true', Bool.or_eq_false_iff, decide_eq_false_iff_not,
    not_lt, bne_eq_false_iff_eq]
  omega

theorem compute_geometry_valid (sk ic : Nat) (h1 : 180 ≤ sk) (h2 : sk ≤ 4096)
    (h3 : sk % 4 = 0) (h4 : 128 ≤ ic) (h5 : ic ≤ 512) :
    compute_geometry sk ic = some ⟨gTotal sk, gItb ic, gDrs ic, gDrb sk ic⟩ := by
  unfold compute_geometry
  rw [params_valid_of_bounds h1 h2 h3 h4 h5]
  simp only [Bool.not_true, Bool.false_eq_true, if_false]
  rw [if_neg]
  · rfl
  · omega

theorem gDrs_le {ic : Nat} (h5 : ic ≤ 512) : gDrs ic ≤ 19 := by
  unfold gDrs gItb
  omega

theorem gDrs_ge {ic : Nat} (h4 : 128 ≤ ic) : 7 ≤ gDrs ic := by
  unfold gDrs gItb
  omega

theorem gDrb_ge {sk ic : Nat} (h1 : 180 ≤ sk) (h5 : ic ≤ 512) : 26 ≤ gDrb sk ic := by
  unfold gDrb gTotal gDrs gItb
  omega

theorem buildImage_valid (sk ic now sbCrc : Nat) (h1 : 180 ≤ sk) (h2 : sk ≤ 4096)
    (h3 : sk % 4 = 0) (h4 : 128 ≤ ic) (h5 : ic ≤ 512) :
    buildImage sk ic now sbCrc = some (freshImage sk ic now sbCrc) := by
  unfold buildImage
  rw [compute_geometry_valid sk ic h1 h2 h3 h4 h5]
  rfl

/-! ## Toolkit: reading dirent slots through equal block bytes -/

theorem readDirentAt_ext (blk1 blk2 : Nat → Nat) (j : Nat)
    (h : ∀ k, k < 64 → blk1 (64 * j + k) = blk2 (64 * j + k)) :
    readDirentAt blk1 j = readDirentAt blk2 j := by
  unfold readDirentAt parseDirent
  simp only [Dirent.mk.injEq]
  refine ⟨?_, ?_, ?_, ?_⟩
  · rw [h 0 (by omega), h 1 (by omega), h 2 (by omega), h 3 (by omega)]
  · rw [h 4 (by omega)]
  · apply List.map_congr_left
    intro a ha
    have ha58 : a < 58 := List.mem_range.mp ha
    rw [h (5 + a) (by omega)]
  · rw [h 63 (by omega)]

theorem getD_map_range (f : Nat → Nat) (n j : Nat) (h : j < n) :
    ((List.range n).map f).getD j 0 = f j := by
  rw [List.getD_eq_getElem?_getD, List.getElem?_map, List.getElem?_range h]
  rfl

/-- Dirent slots of the all-zero block read as all-zero records. -/
theorem readDirentAt_zero (i : Nat) :
    (readDirentAt (fun _ => 0) i).inode_no = 0 := rfl

/-- Entries 2.. of the freshly built root block are empty slots. -/
theorem builtRootBlock_beyond (i : Nat) (hi : 2 ≤ i) :
    (readDirentAt builtRootBlock i).inode_no = 0 := by
  unfold builtRootBlock
  rw [readDirentAt_writeDirentAt_ne _ _ _ _ (by omega),
    readDirentAt_writeDirentAt_ne _ _ _ _ (by omega)]
  exact readDirentAt_zero i

/-! ## Toolkit: the first free inode under a set bit 0 -/

theorem find_free_inode_ge_two (bm : Nat → Nat) (count fi : Nat)
    (hb : bitGet bm 0 = true) (h : find_free_inode bm count = some fi) :
    2 ≤ fi := by
  unfold find_free_inode find_free_data_block at h
  cases hr : findFirst (fun i => !bitGet bm i) 0 count with
  | none => rw [hr] at h; cases h
  | some r =>
    rw [hr] at h
    injection h with h2
    have hc := (findFirst_eq_some_iff _ _ _ _).mp hr
    obtain ⟨_, _, hp, _⟩ := hc
    have hr0 : r ≠ 0 := by
      rintro rfl
      rw [hb] at hp
      cases hp
    have h3 : r + 1 = fi := h2
    omega

/-! ## Toolkit: serialization prefixes under checksum finalization -/

theorem direntBytes_take_63 (de : Dirent) :
    (direntBytes de).take 63 = enc 4 de.inode_no ++ enc 1 de.type ++ padBytes 58 de.name := by
  have hA : (enc 4 de.inode_no ++ enc 1 de.type ++ padBytes 58 de.name).length = 63 := by
    simp [enc_length, padBytes_length]
  unfold direntBytes
  rw [← hA, List.take_left]

theorem inodeBytes_take_120 (ino : Inode) :
    (inodeBytes ino).take 120
      = enc 2 ino.mode ++ enc 2 ino.links ++ enc 4 ino.uid ++ enc 4 ino.gid ++
        enc 8 ino.size_bytes ++ enc 8 ino.atime ++ enc 8 ino.mtime ++ enc 8 ino.ctime ++
        (List.range 12).flatMap (fun i => enc 4 (ino.direct i)) ++
        enc 4 ino.reserved_0 ++ enc 4 ino.reserved_1 ++ enc 4 ino.reserved_2 ++
        enc 4 ino.proj_id ++ enc 4 ino.uid16_gid16 ++ enc 8 ino.xattr_ptr := by
  have hA : (enc 2 ino.mode ++ enc 2 ino.links ++ enc 4 ino.uid ++ enc 4 ino.gid ++
      enc 8 ino.size_bytes ++ enc 8 ino.atime ++ enc 8 ino.mtime ++ enc 8 ino.ctime ++
      (List.range 12).flatMap (fun i => enc 4 (ino.direct i)) ++
      enc 4 ino.reserved_0 ++ enc 4 ino.reserved_1 ++ enc 4 ino.reserved_2 ++
      enc 4 ino.proj_id ++ enc 4 ino.uid16_gid16 ++ enc 8 ino.xattr_ptr).length = 120 := by
    have h12 : List.range 12 = [0, 1, 2, 3, 4, 5, 6, 7, 8, 9, 10, 11] := by rfl
    simp [h12, enc_length]
  unfold inodeBytes
  rw [← hA, List.take_left]

/-- The first 120 bytes of an inode record do not change when only its
checksum field is rewritten; hence the stored checksum of a finalized inode
is valid for the finalized record itself. -/
theorem inode_crc_finalize_valid (ino : Inode) :
    (inode_crc_finalize ino).inode_crc
      = crc32 ((inodeBytes (inode_crc_finalize ino)).take 120) := by
  rw [inodeBytes_take_120]
  show crc32 ((inodeBytes ino).take 120)
    = crc32 (enc 2 ino.mode ++ enc 2 ino.links ++ enc 4 ino.uid ++ enc 4 ino.gid ++
      enc 8 ino.size_bytes ++ enc 8 ino.atime ++ enc 8 ino.mtime ++ enc 8 ino.ctime ++
      (List.range 12).flatMap (fun i => enc 4 (ino.direct i)) ++
      enc 4 ino.reserved_0 ++ enc 4 ino.reserved_1 ++ enc 4 ino.reserved_2 ++
      enc 4 ino.proj_id ++ enc 4 ino.uid16_gid16 ++ enc 8 ino.xattr_ptr)
  rw [inodeBytes_take_120]

/-- Same for dirents: the 63 checksummed bytes are unchanged by storing the
checksum, so the stored byte is the XOR of the finalized record's prefix. -/
theorem dirent_checksum_finalize_valid (de : Dirent) :
    (dirent_checksum_finalize de).checksum
      = xorBytes ((direntBytes (dirent_checksum_finalize de)).take 63) := by
  rw [direntBytes_take_63]
  show xorBytes ((direntBytes de).take 63)
    = xorBytes (enc 4 de.inode_no ++ enc 1 de.type ++ padBytes 58 de.name)
  rw [direntBytes_take_63]

/-! ## Toolkit: insertSeq plumbing -/

theorem insertSeq_error (e : InsertError) (files : List (List Nat × List Nat × Nat)) :
    insertSeq (.error e) files = .error e := by
  cases files with
  | nil => rfl
  | cons f rest => rfl

theorem insertSeq_append (st : Except InsertError Image)
    (l1 l2 : List (List Nat × List Nat × Nat)) :
    insertSeq st (l1 ++ l2) = insertSeq (insertSeq st l1) l2 := by
  induction l1 generalizing st with
  | nil => rfl
  | cons f rest ih =>
    cases st with
    | error e => simp only [insertSeq_error]
    | ok img =>
      rw [List.cons_append]
      show insertSeq (insertFile img f.1 f.2.1 f.2.2) (rest ++ l2)
        = insertSeq (insertSeq (insertFile img f.1 f.2.1 f.2.2) rest) l2
      exact ih _

/-! ## Toolkit: projections through checksum finalization -/

theorem inode_crc_finalize_links (x : Inode) : (inode_crc_finalize x).links = x.links := rfl

theorem inode_crc_finalize_size (x : Inode) :
    (inode_crc_finalize x).size_bytes = x.size_bytes := rfl

theorem inode_crc_finalize_mode (x : Inode) : (inode_crc_finalize x).mode = x.mode := rfl

theorem inode_crc_finalize_direct (x : Inode) :
    (inode_crc_finalize x).direct = x.direct := rfl

theorem newDirent_inode_no (fi : Nat) (fname : List Nat) :
    (newDirent fi fname).inode_no = fi % 2 ^ 32 := rfl

theorem newDirent_type (fi : Nat) (fname : List Nat) :
    (newDirent fi fname).type = 1 := rfl

/-- The name stored by `newDirent` when the filename has no interior NUL
bytes: the first 57 bytes of the name, zero-padded into the 58-byte field. -/
theorem newDirent_name (fi : Nat) (fname : List Nat) (hfn : ∀ b ∈ fname, b ≠ 0) :
    (newDirent fi fname).name = padBytes 58 (fname.take 57) := by
  unfold newDirent dirent_checksum_finalize
  have htw : fname.takeWhile (fun b => decide (b ≠ 0)) = fname := by
    induction fname with
    | nil => rfl
    | cons x xs ih =>
      rw [List.takeWhile_cons]
      rw [if_pos (by simp [hfn x (List.mem_cons_self _ _)])]
      rw [ih (fun b hb => hfn b (List.mem_cons_of_mem _ hb))]
  show padBytes 58 ((fname.takeWhile fun b => decide (b ≠ 0)).take
      (min (fname.takeWhile fun b => decide (b ≠ 0)).length 57)) = padBytes 58 (fname.take 57)
  rw [htw]
  rcases Nat.le_total fname.length 57 with h | h
  · rw [Nat.min_eq_left h, List.take_of_length_le (Nat.le_refl _),
      List.take_of_length_le h]
  · rw [Nat.min_eq_right h]

theorem grownTable_zero (img : Image) (content : List Nat) (now fi : Nat)
    (blocks : List Nat) :
    grownTable img content now fi blocks 0
      = inode_crc_finalize
          { rootAfterNew img content now fi blocks with
            size_bytes := ((rootAfterNew img content now fi blocks).size_bytes + 64)
              % 2 ^ 64 } := by
  unfold grownTable
  rw [if_pos rfl]

/-! ## Toolkit: the generic one-file insert step

Under the state shape shared by all fresh images and their insert
successors (prefix bitmaps, root inode at slot 0 pointing at relative data
block 0, `2 + k` in-use directory entries), a one-to-twelve-block insert
succeeds and transforms the state as mkfs_adder's main does. -/

theorem insert_step_main (st : Image) (fname content : List Nat) (now k drs n : Nat)
    (dbm : Nat → Nat) (blocks : List Nat)
    (hmagic : st.sb.magic = 0x4D565346)
    (hdrs : st.sb.data_region_start = drs)
    (hk : 2 + k < 64)
    (hn : (content.length + 4096 - 1) / 4096 = n)
    (h1 : 1 ≤ content.length)
    (hn12 : n ≤ 12)
    (hibm : ∀ j, bitGet st.inode_bitmap j = decide (j < k + 1))
    (hic : k + 1 < st.sb.inode_count)
    (halloc : allocDataBlocks n st.data_bitmap st.sb.data_region_blocks
      st.sb.data_region_start = some (dbm, blocks))
    (hpref : isPref dbm (k + 1 + n))
    (hlen : blocks.length = n)
    (hgetD : ∀ j, j < n → blocks.getD j 0 = drs + (k + 1 + j))
    (hsize : (st.inode_table 0).size_bytes = 128 + 64 * k)
    (hdir0 : (st.inode_table 0).direct 0 = drs)
    (hents : ∀ i, i < 2 + k → (readDirentAt (st.data_region 0) i).inode_no ≠ 0) :
    ∃ out, insertFile st fname content now = .ok out ∧
      out.sb = st.sb ∧
      (∀ j, bitGet out.inode_bitmap j = decide (j < k + 2)) ∧
      (∀ j, bitGet out.data_bitmap j = decide (j < k + 1 + n)) ∧
      (out.inode_table 0).links = ((st.inode_table 0).links + 1) % 2 ^ 16 ∧
      (out.inode_table 0).size_bytes = (128 + 64 * k + 64) % 2 ^ 64 ∧
      (out.inode_table 0).direct 0 = drs ∧
      (out.inode_table (k + 1)).size_bytes = content.length % 2 ^ 64 ∧
      (out.inode_table (k + 1)).mode = 0x8000 ∧
      readDirentAt (out.data_region 0) (2 + k) = newDirent (k + 2) fname ∧
      (∀ i, i < 2 + k →
        readDirentAt (out.data_region 0) i = readDirentAt (st.data_region 0) i) := by
  have hfdb : find_free_data_block st.inode_bitmap st.sb.inode_count = some (k + 1) :=
    @find_free_data_block_pref st.inode_bitmap (k + 1) st.sb.inode_count hibm hic
  have hfi : find_free_inode st.inode_bitmap st.sb.inode_count = some (k + 2) := by
    unfold find_free_inode
    rw [hfdb]
    rfl
  have halloc2 : allocDataBlocks ((content.length + 4096 - 1) / 4096) st.data_bitmap
      st.sb.data_region_blocks st.sb.data_region_start = some (dbm, blocks) := by
    rw [hn]
    exact halloc
  have hroot : rootAfterNew st content now (k + 2) blocks = st.inode_table 0 := by
    unfold rootAfterNew
    exact tableWithNew_ne st content now (k + 2) blocks 0 (by omega)
  have hrdb : rootRelBlock st content now (k + 2) blocks = 0 := by
    unfold rootRelBlock
    rw [hroot, hdir0, hdrs]
    omega
  have hcopy : ∀ i, readDirentAt (rootBlockAfterCopy st content now (k + 2) blocks) i
      = readDirentAt (st.data_region 0) i := by
    intro i
    unfold rootBlockAfterCopy
    rw [hrdb]
    apply readDirentAt_ext
    intro off hoff
    unfold regionAfterCopy
    apply writeContent_ne
    intro idx hidx
    rw [hlen] at hidx
    rw [hgetD idx hidx, hdrs]
    omega
  have hec : rootEntryCount st content now (k + 2) blocks = 2 + k := by
    unfold rootEntryCount
    rw [hroot, hsize]
    omega
  have hscan : rootScan st content now (k + 2) blocks = none := by
    unfold rootScan
    rw [hec]
    apply (findFirst_eq_none_iff _ _ _).mpr
    intro i hi0 hi
    show ((readDirentAt (rootBlockAfterCopy st content now (k + 2) blocks) i).inode_no
      == 0) = false
    rw [hcopy i]
    simp only [beq_eq_false_iff_ne, ne_eq]
    exact hents i (by omega)
  have hok : insertFile st fname content now
      = .ok (insertOut st fname content now (k + 2) dbm blocks (2 + k)
          (grownTable st content now (k + 2) blocks)) := by
    rw [insertFile_eq_core st fname content now (k + 2) dbm blocks hmagic hfi
      (by omega) halloc2 (by omega)]
    rw [insertCore_scan_none_append st fname content now (k + 2) dbm blocks hscan
      (by rw [hec]; omega)]
    rw [hec]
  have hg0 : grownTable st content now (k + 2) blocks 0
      = inode_crc_finalize { st.inode_table 0 with
          size_bytes := ((st.inode_table 0).size_bytes + 64) % 2 ^ 64 } := by
    unfold grownTable
    rw [if_pos rfl, hroot]
  have hout0 : (insertOut st fname content now (k + 2) dbm blocks (2 + k)
      (grownTable st content now (k + 2) blocks)).inode_table 0
      = inode_crc_finalize
          { inode_crc_finalize { st.inode_table 0 with
                size_bytes := ((st.inode_table 0).size_bytes + 64) % 2 ^ 64 } with
            links := ((st.inode_table 0).links + 1) % 2 ^ 16 } := by
    rw [insertOut_inode_table_zero, hg0]
    rfl
  have houtN : (insertOut st fname content now (k + 2) dbm blocks (2 + k)
      (grownTable st content now (k + 2) blocks)).inode_table (k + 1)
      = newInodeFor st content now (k + 2) blocks := by
    rw [insertOut_inode_table_ne st fname content now (k + 2) dbm blocks (2 + k)
      (grownTable st content now (k + 2) blocks) (k + 1) (by omega)]
    unfold grownTable
    rw [if_neg (by omega : ¬(k + 1 = 0))]
    unfold tableWithNew
    rw [if_pos (by omega : k + 1 = k + 2 - 1)]
  have hd : (insertOut st fname content now (k + 2) dbm blocks (2 + k)
      (grownTable st content now (k + 2) blocks)).data_region 0
      = writeDirentAt (rootBlockAfterCopy st content now (k + 2) blocks) (2 + k)
          (newDirent (k + 2) fname) := by
    conv_lhs =>
      rw [show (0 : Nat) = rootRelBlock st content now (k + 2) blocks from hrdb.symm]
    rw [insertOut_data_region_root]
  refine ⟨_, hok, insertOut_sb st fname content now (k + 2) dbm blocks (2 + k) _,
    ?_, ?_, ?_, ?_, ?_, ?_, ?_, ?_, ?_⟩
  · rw [insertOut_inode_bitmap]
    show ∀ j, bitGet (setBit st.inode_bitmap (k + 1)) j = decide (j < k + 2)
    exact isPref_setBit hibm
  · rw [insertOut_data_bitmap]
    exact hpref
  · rw [hout0]
    rfl
  · rw [hout0]
    show ((st.inode_table 0).size_bytes + 64) % 2 ^ 64 = (128 + 64 * k + 64) % 2 ^ 64
    rw [hsize]
  · rw [hout0]
    exact hdir0
  · rw [houtN]
    rfl
  · rw [houtN]
    rfl
  · rw [hd, readDirentAt_writeDirentAt_self, canonDirent_newDirent]
  · intro i hi
    rw [hd, readDirentAt_writeDirentAt_ne _ _ _ _ (by omega : i ≠ 2 + k), hcopy i]

/-! ## Toolkit: the root-directory scan under the shared state shape -/

theorem insert_scan_setup (st : Image) (content : List Nat) (now k drs n : Nat)
    (blocks : List Nat)
    (hdrs : st.sb.data_region_start = drs)
    (hlen : blocks.length = n)
    (hgetD : ∀ j, j < n → blocks.getD j 0 = drs + (k + 1 + j))
    (hsize : (st.inode_table 0).size_bytes = 128 + 64 * k)
    (hdir0 : (st.inode_table 0).direct 0 = drs)
    (hents : ∀ i, i < 2 + k → (readDirentAt (st.data_region 0) i).inode_no ≠ 0) :
    rootEntryCount st content now (k + 2) blocks = 2 + k ∧
    rootScan st content now (k + 2) blocks = none := by
  have hroot : rootAfterNew st content now (k + 2) blocks = st.inode_table 0 := by
    unfold rootAfterNew
    exact tableWithNew_ne st content now (k + 2) blocks 0 (by omega)
  have hrdb : rootRelBlock st content now (k + 2) blocks = 0 := by
    unfold rootRelBlock
    rw [hroot, hdir0, hdrs]
    omega
  have hcopy : ∀ i, readDirentAt (rootBlockAfterCopy st content now (k + 2) blocks) i
      = readDirentAt (st.data_region 0) i := by
    intro i
    unfold rootBlockAfterCopy
    rw [hrdb]
    apply readDirentAt_ext
    intro off hoff
    unfold regionAfterCopy
    apply writeContent_ne
    intro idx hidx
    rw [hlen] at hidx
    rw [hgetD idx hidx, hdrs]
    omega
  have hec : rootEntryCount st content now (k + 2) blocks = 2 + k := by
    unfold rootEntryCount
    rw [hroot, hsize]
    omega
  refine ⟨hec, ?_⟩
  unfold rootScan
  rw [hec]
  apply (findFirst_eq_none_iff _ _ _).mpr
  intro i hi0 hi
  show ((readDirentAt (rootBlockAfterCopy st content now (k + 2) blocks) i).inode_no
    == 0) = false
  rw [hcopy i]
  simp only [beq_eq_false_iff_ne, ne_eq]
  exact hents i (by omega)

/-! ## Toolkit: the root-directory fill invariant -/

theorem rootInv_step (sb : Superblock) (drs k : Nat) (st : Image)
    (hmagic : sb.magic = 0x4D565346)
    (hdrs : sb.data_region_start = drs)
    (hdrs19 : drs ≤ 19)
    (hic : 64 ≤ sb.inode_count)
    (hdrb : 64 ≤ sb.data_region_blocks)
    (hk : k ≤ 61)
    (hinv : rootInv drs sb k st)
    (fname content : List Nat) (now : Nat)
    (h1 : 1 ≤ content.length) (h2 : content.length ≤ 4096) :
    ∃ st2, insertFile st fname content now = .ok st2 ∧ rootInv drs sb (k + 1) st2 := by
  obtain ⟨hsb, hibm, hdbm, hlinks, hsize, hdir0, hents⟩ := hinv
  have hp16 : (2 : Nat) ^ 16 = 65536 := by norm_num
  have hp32 : (2 : Nat) ^ 32 = 4294967296 := by norm_num
  have hp64 : (2 : Nat) ^ 64 = 18446744073709551616 := by norm_num
  obtain ⟨dbm, halloc, hpref⟩ :=
    @allocDataBlocks_pref st.sb.data_region_blocks st.sb.data_region_start 1
      st.data_bitmap (k + 1) hdbm (by rw [hsb]; omega)
  obtain ⟨out, hok, hsb2, hib2, hdb2, hlinks2, hsz2, hdir2, _, _, hde2, hold2⟩ :=
    insert_step_main st fname content now k drs 1 dbm _
      (by rw [hsb]; exact hmagic)
      (by rw [hsb]; exact hdrs)
      (by omega)
      (by omega)
      h1
      (by omega)
      hibm
      (by rw [hsb]; omega)
      halloc
      hpref
      (by rw [List.length_map, List.length_range])
      (by
        intro j hj
        rw [getD_map_range _ _ _ hj, hsb, hdrs]
        omega)
      hsize
      hdir0
      hents
  refine ⟨out, hok, ?_, ?_, ?_, ?_, ?_, hdir2, ?_⟩
  · rw [hsb2, hsb]
  · exact hib2
  · exact hdb2
  · rw [hlinks2, hlinks]
    omega
  · rw [hsz2]
    omega
  · intro i hi
    by_cases hik : i < 2 + k
    · rw [hold2 i hik]
      exact hents i hik
    · have hieq : i = 2 + k := by omega
      rw [hieq, hde2, newDirent_inode_no]
      omega

theorem rootInv_full (sb : Superblock) (drs : Nat) (st : Image)
    (hmagic : sb.magic = 0x4D565346)
    (hdrs : sb.data_region_start = drs)
    (hdrs19 : drs ≤ 19)
    (hic : 64 ≤ sb.inode_count)
    (hdrb : 64 ≤ sb.data_region_blocks)
    (hinv : rootInv drs sb 62 st)
    (fname content : List Nat) (now : Nat)
    (h1 : 1 ≤ content.length) (h2 : content.length ≤ 4096) :
    insertFile st fname content now = .error .rootDirFull := by
  obtain ⟨hsb, hibm, hdbm, hlinks, hsize, hdir0, hents⟩ := hinv
  have hp32 : (2 : Nat) ^ 32 = 4294967296 := by norm_num
  have hstdrs : st.sb.data_region_start = drs := by rw [hsb]; exact hdrs
  have hfdb : find_free_data_block st.inode_bitmap st.sb.inode_count = some 63 :=
    @find_free_data_block_pref st.inode_bitmap 63 st.sb.inode_count hibm
      (by rw [hsb]; omega)
  have hfi : find_free_inode st.inode_bitmap st.sb.inode_count = some 64 := by
    unfold find_free_inode
    rw [hfdb]
    rfl
  obtain ⟨dbm, halloc, hpref⟩ :=
    @allocDataBlocks_pref st.sb.data_region_blocks st.sb.data_region_start
      ((content.length + 4096 - 1) / 4096) st.data_bitmap 63 hdbm
      (by rw [hsb]; omega)
  obtain ⟨hec, hscan⟩ := insert_scan_setup st content now 62 drs
    ((content.length + 4096 - 1) / 4096)
    ((List.range ((content.length + 4096 - 1) / 4096)).map
      (fun j => (st.sb.data_region_start + (63 + j)) % 2 ^ 32))
    hstdrs
    (by rw [List.length_map, List.length_range])
    (by
      intro j hj
      rw [getD_map_range _ _ _ hj, hstdrs]
      omega)
    hsize
    hdir0
    hents
  rw [insertFile_eq_core st fname content now 64 dbm _
    (by rw [hsb]; exact hmagic) hfi (by omega) halloc (by omega)]
  exact insertCore_scan_none_full st fname content now 64 dbm _ hscan (by rw [hec])

theorem insertSeq_inv (sb : Superblock) (drs : Nat)
    (hmagic : sb.magic = 0x4D565346)
    (hdrs : sb.data_region_start = drs)
    (hdrs19 : drs ≤ 19)
    (hic : 64 ≤ sb.inode_count)
    (hdrb : 64 ≤ sb.data_region_blocks) :
    ∀ (files : List (List Nat × List Nat × Nat)),
      (∀ f ∈ files, 1 ≤ f.2.1.length ∧ f.2.1.length ≤ 4096) →
      ∀ k st, rootInv drs sb k st → k + files.length ≤ 62 →
        ∃ st2, insertSeq (.ok st) files = .ok st2 ∧
          rootInv drs sb (k + files.length) st2 := by
  intro files
  induction files with
  | nil =>
    intro _ k st hinv _
    exact ⟨st, rfl, by simpa using hinv⟩
  | cons f rest ih =>
    intro hf k st hinv hle
    rw [List.length_cons] at hle
    obtain ⟨st2, hok, hinv2⟩ := rootInv_step sb drs k st hmagic hdrs hdrs19 hic hdrb
      (by omega) hinv f.1 f.2.1 f.2.2
      (hf f (List.mem_cons_self _ _)).1 (hf f (List.mem_cons_self _ _)).2
    obtain ⟨st3, hseq, hinv3⟩ := ih (fun g hg => hf g (List.mem_cons_of_mem _ hg))
      (k + 1) st2 hinv2 (by omega)
    refine ⟨st3, ?_, ?_⟩
    · show insertSeq (insertFile st f.1 f.2.1 f.2.2) rest = .ok st3
      rw [hok]
      exact hseq
    · rw [List.length_cons]
      have hidx : k + (rest.length + 1) = k + 1 + rest.length := by omega
      rw [hidx]
      exact hinv3

/-- A freshly built image satisfies the fill invariant at `k = 0`. -/
theorem rootInv_freshImage (sk ic now sbCrc : Nat) (h5 : ic ≤ 512) :
    rootInv (gDrs ic) (freshImage sk ic now sbCrc).sb 0 (freshImage sk ic now sbCrc) := by
  have h19 := gDrs_le h5
  have hp32 : (2 : Nat) ^ 32 = 4294967296 := by norm_num
  refine ⟨rfl, ?_, ?_, rfl, rfl, ?_, ?_⟩
  · intro j
    show bitGet (fun b => if b = 0 then 1 else 0) j = decide (j < 0 + 1)
    rw [bitGet_freshBitmap j]
  · intro j
    show bitGet (fun b => if b = 0 then 1 else 0) j = decide (j < 0 + 1)
    rw [bitGet_freshBitmap j]
  · show gDrs ic % 2 ^ 32 = gDrs ic
    omega
  · intro i hi
    show (readDirentAt builtRootBlock i).inode_no ≠ 0
    match i, hi with
    | 0, _ => decide
    | 1, _ => decide

/-! ## Claim theorems -/

/-- C1.  The claim states that `superblock_crc_finalize` computes the CRC32
over exactly the 116-byte superblock record and never reads past its end,
so that in a total embedding the out-of-range branch is unreachable.  The
code instead calls `crc32((void*)sb, BS - 4)`, a 4092-byte read of the
116-byte record: in the total embedding the out-of-range branch is reached
for EVERY superblock, so the routine never returns a record-determined
checksum.  This contradicts the claim (and the spec's stated contract for
`finalize_superblock`); the spec itself flags the code's behavior as an
unintended out-of-bounds read, so the code, not the claim, is wrong. -/
theorem sb_crc_reads_past_record (sb : Superblock) :
    superblock_crc_finalize sb = none := by
  have h : ∀ x : Superblock, crc32_bounded (superblockBytes x) (4096 - 4) = none := by
    intro x
    unfold crc32_bounded
    rw [if_neg]
    rw [superblockBytes_length]
    omega
  unfold superblock_crc_finalize
  simp only [h]

/-- C4.  For every `(size_kib, inode_count)` pair within the documented
bounds (size 180..4096 and a multiple of 4, inodes 128..512), the geometry
computation succeeds with `total_blocks = size_kib*1024/4096`,
`inode_table_blocks = ceil(inode_count*128/4096)`,
`data_region_start = 3 + inode_table_blocks`, and
`data_region_blocks = total_blocks - data_region_start ≥ 1`; every pair
outside those bounds is rejected. -/
theorem compute_geometry_spec :
    (∀ sk ic : Nat, 180 ≤ sk → sk ≤ 4096 → sk % 4 = 0 → 128 ≤ ic → ic ≤ 512 →
      compute_geometry sk ic =
        some ⟨sk * 1024 / 4096, (ic * 128 + 4096 - 1) / 4096,
          3 + (ic * 128 + 4096 - 1) / 4096,
          sk * 1024 / 4096 - (3 + (ic * 128 + 4096 - 1) / 4096)⟩ ∧
      1 ≤ sk * 1024 / 4096 - (3 + (ic * 128 + 4096 - 1) / 4096)) ∧
    (∀ sk ic : Nat, ¬(180 ≤ sk ∧ sk ≤ 4096 ∧ sk % 4 = 0 ∧ 128 ≤ ic ∧ ic ≤ 512) →
      compute_geometry sk ic = none) := by
  constructor
  · intro sk ic h1 h2 h3 h4 h5
    have hv : params_valid sk ic = true := by
      unfold params_valid
      simp only [Bool.not_eq_true', Bool.or_eq_false_iff, decide_eq_false_iff_not,
        not_lt, bne_eq_false_iff_eq]
      omega
    have hdrb : 1 ≤ sk * 1024 / 4096 - (3 + (ic * 128 + 4096 - 1) / 4096) := by
      omega
    refine ⟨?_, hdrb⟩
    unfold compute_geometry
    rw [hv]
    simp only [Bool.not_true, Bool.false_eq_true, if_false]
    rw [if_neg (by omega)]
  · intro sk ic h
    have hv : params_valid sk ic = false := by
      unfold params_valid
      simp only [Bool.not_eq_false', Bool.or_eq_true_iff, decide_eq_true_eq, bne_iff_ne,
        ne_eq]
      omega
    unfold compute_geometry
    rw [hv]
    simp

/-- C4 witness: the theorem applied at the concrete pairs (180, 128) —
accepted with the stated geometry — and (100, 128) — rejected. -/
theorem compute_geometry_spec_witness :
    compute_geometry 180 128 =
      some ⟨180 * 1024 / 4096, (128 * 128 + 4096 - 1) / 4096,
        3 + (128 * 128 + 4096 - 1) / 4096,
        180 * 1024 / 4096 - (3 + (128 * 128 + 4096 - 1) / 4096)⟩ ∧
    compute_geometry 100 128 = none :=
  ⟨(compute_geometry_spec.1 180 128 (by decide) (by decide) (by decide) (by decide)
      (by decide)).1,
   compute_geometry_spec.2 100 128 (by decide)⟩

/-- C5.  Inserting a source file larger than 49152 bytes
(`needed_blocks = ceil(size/4096) > 12`) always fails — whatever the input
image — and in the embedding an error outcome means the adder exits before
the output file is ever opened, so no output image is produced. -/
theorem insert_oversize_fails (img : Image) (fname content : List Nat) (now : Nat)
    (h : 49152 < content.length) :
    isOk (insertFile img fname content now) = false := by
  unfold insertFile
  by_cases hm : img.sb.magic ≠ 0x4D565346
  · rw [if_pos hm]; rfl
  · rw [if_neg hm]
    cases hfi : find_free_inode img.inode_bitmap img.sb.inode_count with
    | none => rfl
    | some fi =>
      simp only [hfi]
      rw [if_pos (by omega : 12 < (content.length + 4096 - 1) / 4096)]
      rfl

/-- C5 witness: a 49153-byte file is rejected. -/
theorem insert_oversize_fails_witness :
    49152 < bigFile.length ∧ isOk (insertFile img180 [97] bigFile 0) = false :=
  have hlen : 49152 < bigFile.length := by
    unfold bigFile
    rw [List.length_replicate]
    omega
  ⟨hlen, insert_oversize_fails img180 [97] bigFile 0 hlen⟩

/-- C7.  After `dirent_checksum_finalize`, the XOR of the first 63 bytes of
the directory entry equals its stored checksum byte; after
`inode_crc_finalize`, the CRC32 of the first 120 bytes of the inode record
equals its stored (zero-extended) `inode_crc` value. -/
theorem checksum_finalize_spec :
    (∀ de : Dirent,
      xorBytes ((direntBytes (dirent_checksum_finalize de)).take 63)
        = (dirent_checksum_finalize de).checksum) ∧
    (∀ ino : Inode,
      crc32 ((inodeBytes (inode_crc_finalize ino)).take 120)
        = (inode_crc_finalize ino).inode_crc) :=
  ⟨fun de => (dirent_checksum_finalize_valid de).symm,
   fun ino => (inode_crc_finalize_valid ino).symm⟩

/-- C6.  A freshly built image (for any valid parameters) has exactly two
allocated bitmap bits — bit 0 of the inode bitmap and bit 0 of the data
bitmap, all others clear — a root inode with link count 2, `size_bytes`
128 and `direct[0] = data_region_start`, and exactly two root directory
entries, "." and "..", both with inode number 1 and type directory (all
further slots empty). -/
theorem fresh_image_layout_spec (sk ic now sbCrc : Nat)
    (h1 : 180 ≤ sk) (h2 : sk ≤ 4096) (h3 : sk % 4 = 0) (h4 : 128 ≤ ic) (h5 : ic ≤ 512) :
    ∃ img, buildImage sk ic now sbCrc = some img ∧
      (∀ j, bitGet img.inode_bitmap j = decide (j = 0)) ∧
      (∀ j, bitGet img.data_bitmap j = decide (j = 0)) ∧
      (img.inode_table 0).links = 2 ∧
      (img.inode_table 0).size_bytes = 128 ∧
      (img.inode_table 0).direct 0 = img.sb.data_region_start ∧
      (readDirentAt (img.data_region 0) 0).inode_no = 1 ∧
      (readDirentAt (img.data_region 0) 0).type = 2 ∧
      (readDirentAt (img.data_region 0) 0).name = 46 :: List.replicate 57 0 ∧
      (readDirentAt (img.data_region 0) 1).inode_no = 1 ∧
      (readDirentAt (img.data_region 0) 1).type = 2 ∧
      (readDirentAt (img.data_region 0) 1).name = 46 :: 46 :: List.replicate 56 0 ∧
      (∀ i, 2 ≤ i → (readDirentAt (img.data_region 0) i).inode_no = 0) := by
  refine ⟨freshImage sk ic now sbCrc, buildImage_valid sk ic now sbCrc h1 h2 h3 h4 h5,
    ?_, ?_, ?_, ?_, ?_, ?_, ?_, ?_, ?_, ?_, ?_, ?_⟩
  · intro j
    show bitGet (fun b => if b = 0 then 1 else 0) j = decide (j = 0)
    rw [bitGet_freshBitmap j, decide_eq_decide]
    omega
  · intro j
    show bitGet (fun b => if b = 0 then 1 else 0) j = decide (j = 0)
    rw [bitGet_freshBitmap j, decide_eq_decide]
    omega
  · rfl
  · rfl
  · show gDrs ic % 2 ^ 32 = gDrs ic
    apply Nat.mod_eq_of_lt
    have h19 := gDrs_le h5
    have hp : (2 : Nat) ^ 32 = 4294967296 := by norm_num
    omega
  · show (readDirentAt builtRootBlock 0).inode_no = 1
    decide
  · show (readDirentAt builtRootBlock 0).type = 2
    decide
  · show (readDirentAt builtRootBlock 0).name = 46 :: List.replicate 57 0
    decide
  · show (readDirentAt builtRootBlock 1).inode_no = 1
    decide
  · show (readDirentAt builtRootBlock 1).type = 2
    decide
  · show (readDirentAt builtRootBlock 1).name = 46 :: 46 :: List.replicate 56 0
    decide
  · intro i hi
    show (readDirentAt builtRootBlock i).inode_no = 0
    exact builtRootBlock_beyond i hi

/-- C6 witness: the layout facts hold for the concrete build
`--size-kib 180 --inodes 128`. -/
theorem fresh_image_layout_spec_witness :
    ∃ img, buildImage 180 128 0 0 = some img ∧
      (∀ j, bitGet img.inode_bitmap j = decide (j = 0)) ∧
      (∀ j, bitGet img.data_bitmap j = decide (j = 0)) ∧
      (img.inode_table 0).links = 2 ∧
      (img.inode_table 0).size_bytes = 128 ∧
      (img.inode_table 0).direct 0 = img.sb.data_region_start ∧
      (readDirentAt (img.data_region 0) 0).inode_no = 1 ∧
      (readDirentAt (img.data_region 0) 0).type = 2 ∧
      (readDirentAt (img.data_region 0) 0).name = 46 :: List.replicate 57 0 ∧
      (readDirentAt (img.data_region 0) 1).inode_no = 1 ∧
      (readDirentAt (img.data_region 0) 1).type = 2 ∧
      (readDirentAt (img.data_region 0) 1).name = 46 :: 46 :: List.replicate 56 0 ∧
      (∀ i, 2 ≤ i → (readDirentAt (img.data_region 0) i).inode_no = 0) :=
  fresh_image_layout_spec 180 128 0 0 (by decide) (by decide) (by decide) (by decide)
    (by decide)

/-- C2 counterexample.  The claim says each of the first 63 insert
operations on a fresh image succeeds and the 64th fails.  On the concrete
fresh 1024 KiB / 128-inode image, repeatedly inserting a one-byte file, the
first 62 inserts succeed but the 63RD insert already fails with the
root-directory-full error (the root block holds 64 entries, two of which
are taken by "." and "..", leaving 62 free slots), refuting "each of the
first 63 insert operations succeeds". -/
theorem root_dir_63rd_insert_fails :
    (∃ out, insertSeq (.ok fresh1024) (List.replicate 62 ([97], [0], 0)) = .ok out) ∧
    insertSeq (.ok fresh1024) (List.replicate 63 ([97], [0], 0))
      = .error .rootDirFull := by
  have hfresh : fresh1024 = freshImage 1024 128 0 0 := by
    show imgOf (buildImage 1024 128 0 0) = freshImage 1024 128 0 0
    rw [buildImage_valid 1024 128 0 0 (by decide) (by decide) (by decide) (by decide)
      (by decide)]
    rfl
  have hinv0 := rootInv_freshImage 1024 128 0 0 (by decide)
  have harg62 : ∀ f ∈ (List.replicate 62 (([97], [0], 0) : List Nat × List Nat × Nat)),
      1 ≤ f.2.1.length ∧ f.2.1.length ≤ 4096 := by
    intro f hf
    rw [List.eq_of_mem_replicate hf]
    exact ⟨by decide, by decide⟩
  obtain ⟨st62, h62, hinv62⟩ := insertSeq_inv (freshImage 1024 128 0 0).sb (gDrs 128)
    rfl rfl (by decide) (by decide) (by decide)
    (List.replicate 62 ([97], [0], 0)) harg62 0 (freshImage 1024 128 0 0) hinv0
    (by simp)
  have hinv62b : rootInv (gDrs 128) (freshImage 1024 128 0 0).sb 62 st62 := by
    have hl : (0 : Nat)
        + (List.replicate 62 (([97], [0], 0) : List Nat × List Nat × Nat)).length
        = 62 := by simp
    rw [hl] at hinv62
    exact hinv62
  constructor
  · rw [hfresh]
    exact ⟨st62, h62⟩
  · rw [hfresh]
    have hsplit : (List.replicate 63 (([97], [0], 0) : List Nat × List Nat × Nat))
        = List.replicate 62 ([97], [0], 0) ++ List.replicate 1 ([97], [0], 0) := by
      rw [← List.replicate_add]
    rw [hsplit, insertSeq_append, h62]
    show insertSeq (insertFile st62 [97] [0] 0) [] = .error .rootDirFull
    rw [rootInv_full (freshImage 1024 128 0 0).sb (gDrs 128) st62 rfl rfl (by decide)
      (by decide) (by decide) hinv62b [97] [0] 0 (by decide) (by decide)]
    rfl

/-- C2 (amended: with two of the 64 root-directory slots taken by "." and
"..", the first 62 inserts succeed and the 63RD — not the 64th — fails
with the root-directory-full error, writing no output image; the claim's
counts are off by one).  Holds for every valid fresh image with at least 64
data-region blocks and every sequence of one-block (1..4096-byte) files. -/
theorem root_dir_capacity_spec (sk ic nowB sbCrc : Nat) (img : Image)
    (h1 : 180 ≤ sk) (h2 : sk ≤ 4096) (h3 : sk % 4 = 0) (h4 : 128 ≤ ic) (h5 : ic ≤ 512)
    (hdrb : 64 ≤ gDrb sk ic)
    (hbuild : buildImage sk ic nowB sbCrc = some img)
    (files : List (List Nat × List Nat × Nat))
    (hf : ∀ f ∈ files, 1 ≤ f.2.1.length ∧ f.2.1.length ≤ 4096) :
    (files.length ≤ 62 → ∃ out, insertSeq (.ok img) files = .ok out) ∧
    (files.length = 63 → insertSeq (.ok img) files = .error .rootDirFull) := by
  have himg : img = freshImage sk ic nowB sbCrc := by
    rw [buildImage_valid sk ic nowB sbCrc h1 h2 h3 h4 h5] at hbuild
    exact (Option.some.inj hbuild).symm
  subst himg
  have hinv0 := rootInv_freshImage sk ic nowB sbCrc h5
  have hdrs19 : gDrs ic ≤ 19 := gDrs_le h5
  have hic64 : 64 ≤ (freshImage sk ic nowB sbCrc).sb.inode_count := by
    show 64 ≤ ic
    omega
  have hdrb2 : 64 ≤ (freshImage sk ic nowB sbCrc).sb.data_region_blocks := hdrb
  constructor
  · intro hlen
    obtain ⟨out, hok, _⟩ := insertSeq_inv (freshImage sk ic nowB sbCrc).sb (gDrs ic)
      rfl rfl hdrs19 hic64 hdrb2 files hf 0 (freshImage sk ic nowB sbCrc) hinv0
      (by omega)
    exact ⟨out, hok⟩
  · intro hlen
    obtain ⟨st62, h62, hinv62⟩ := insertSeq_inv (freshImage sk ic nowB sbCrc).sb
      (gDrs ic) rfl rfl hdrs19 hic64 hdrb2 (files.take 62)
      (fun f hm => hf f (List.take_subset _ _ hm)) 0 (freshImage sk ic nowB sbCrc)
      hinv0 (by rw [List.length_take]; omega)
    have hl62 : (files.take 62).length = 62 := by
      rw [List.length_take]
      omega
    have hinv62b : rootInv (gDrs ic) (freshImage sk ic nowB sbCrc).sb 62 st62 := by
      rw [hl62] at hinv62
      exact hinv62
    obtain ⟨g, hg⟩ : ∃ g, files.drop 62 = [g] := by
      apply List.length_eq_one.mp
      rw [List.length_drop]
      omega
    have hgm : g ∈ files := by
      apply List.drop_subset 62 files
      rw [hg]
      exact List.mem_cons_self _ _
    have hsplit : files = files.take 62 ++ files.drop 62 :=
      (List.take_append_drop 62 files).symm
    rw [hsplit, insertSeq_append, h62, hg]
    show insertSeq (insertFile st62 g.1 g.2.1 g.2.2) [] = .error .rootDirFull
    rw [rootInv_full (freshImage sk ic nowB sbCrc).sb (gDrs ic) st62 rfl rfl hdrs19
      hic64 hdrb2 hinv62b g.1 g.2.1 g.2.2 (hf g hgm).1 (hf g hgm).2]
    rfl

/-- C2 witness for the amended claim: on the concrete fresh 1024 KiB image,
a sequence of 63 one-byte files ends in the root-directory-full error. -/
theorem root_dir_capacity_spec_witness :
    (List.replicate 63 (([97], [0], 0) : List Nat × List Nat × Nat)).length = 63 ∧
    insertSeq (.ok fresh1024) (List.replicate 63 ([97], [0], 0))
      = .error .rootDirFull := by
  have h := root_dir_capacity_spec 1024 128 0 0 fresh1024 (by decide) (by decide)
    (by decide) (by decide) (by decide) (by decide) rfl
    (List.replicate 63 ([97], [0], 0))
    (by
      intro f hf
      rw [List.eq_of_mem_replicate hf]
      exact ⟨by decide, by decide⟩)
  exact ⟨by simp, h.2 (by simp)⟩

/-- C3 counterexample.  The claim says inserting a file of EVERY size
`S ≤ 49152` into a fresh image succeeds; it fails at `S = 0`.  For an
empty source file the adder executes `fread(file_content, 0, 1, file_fp)`,
which returns 0 (C11 7.21.8.2p3: if `size` is zero, `fread` returns zero),
so the `!= 1` check treats the read as failed and the tool exits without
writing an output image. -/
theorem insert_empty_file_fails :
    insertFile img180 [97] [] 0 = Except.error InsertError.readFailure := by
  rfl

/-- C3 (amended: `1 ≤ S ≤ 49152` rather than `S ≤ 49152`).  Inserting a
nonempty file of size `S ≤ 49152` into any fresh image succeeds; exactly
`ceil(S/4096)` data-bitmap bits become newly set (bits 1..n on top of the
fresh image's bit 0), the new inode (number 2, slot 1) has
`size_bytes = S` and regular-file mode 0x8000, the root directory gains an
entry at slot 2 with inode number 2, type 1 and the filename truncated to
57 bytes, inode-bitmap bit 1 (the new inode's) becomes set, and the root
inode's link count grows by exactly 1 (from 2 to 3). -/
theorem insert_into_fresh_spec (sk ic nowB sbCrc : Nat) (img : Image)
    (h1 : 180 ≤ sk) (h2 : sk ≤ 4096) (h3 : sk % 4 = 0) (h4 : 128 ≤ ic) (h5 : ic ≤ 512)
    (hbuild : buildImage sk ic nowB sbCrc = some img)
    (fname content : List Nat) (now : Nat)
    (hfn : ∀ b ∈ fname, b ≠ 0)
    (hs1 : 1 ≤ content.length) (hs2 : content.length ≤ 49152) :
    ∃ out, insertFile img fname content now = .ok out ∧
      (∀ j, bitGet img.data_bitmap j = decide (j < 1)) ∧
      (∀ j, bitGet out.data_bitmap j
        = decide (j < 1 + (content.length + 4096 - 1) / 4096)) ∧
      (out.inode_table 1).size_bytes = content.length ∧
      (out.inode_table 1).mode = 0x8000 ∧
      (readDirentAt (out.data_region 0) 2).inode_no = 2 ∧
      (readDirentAt (out.data_region 0) 2).type = 1 ∧
      (readDirentAt (out.data_region 0) 2).name = padBytes 58 (fname.take 57) ∧
      (∀ j, bitGet img.inode_bitmap j = decide (j < 1)) ∧
      (∀ j, bitGet out.inode_bitmap j = decide (j < 2)) ∧
      (out.inode_table 0).links = (img.inode_table 0).links + 1 ∧
      (img.inode_table 0).links = 2 := by
  have himg : img = freshImage sk ic nowB sbCrc := by
    rw [buildImage_valid sk ic nowB sbCrc h1 h2 h3 h4 h5] at hbuild
    exact (Option.some.inj hbuild).symm
  subst himg
  have hp32 : (2 : Nat) ^ 32 = 4294967296 := by norm_num
  have hp64 : (2 : Nat) ^ 64 = 18446744073709551616 := by norm_num
  have h19 : gDrs ic ≤ 19 := gDrs_le h5
  have h26 : 26 ≤ gDrb sk ic := gDrb_ge h1 h5
  have hdpref : isPref (freshImage sk ic nowB sbCrc).data_bitmap 1 := isPref_fresh
  obtain ⟨dbm, halloc, hpref⟩ :=
    @allocDataBlocks_pref ((freshImage sk ic nowB sbCrc).sb.data_region_blocks)
      ((freshImage sk ic nowB sbCrc).sb.data_region_start)
      ((content.length + 4096 - 1) / 4096)
      (freshImage sk ic nowB sbCrc).data_bitmap 1 hdpref
      (by show 1 + (content.length + 4096 - 1) / 4096 ≤ gDrb sk ic; omega)
  obtain ⟨out, hok, hsb, hib, hdb, hlinks, hsz0, hdir, hszN, hmode, hde, hold⟩ :=
    insert_step_main (freshImage sk ic nowB sbCrc) fname content now 0 (gDrs ic)
      ((content.length + 4096 - 1) / 4096) dbm _
      rfl rfl (by omega) rfl hs1 (by omega)
      (by
        intro j
        show bitGet (fun b => if b = 0 then 1 else 0) j = decide (j < 0 + 1)
        rw [bitGet_freshBitmap j])
      (by show 0 + 1 < ic; omega)
      halloc hpref
      (by rw [List.length_map, List.length_range])
      (by
        intro j hj
        rw [getD_map_range _ _ _ hj]
        show (gDrs ic + (1 + j)) % 2 ^ 32 = gDrs ic + (0 + 1 + j)
        omega)
      rfl
      (by
        show gDrs ic % 2 ^ 32 = gDrs ic
        omega)
      (by
        intro i hi
        show (readDirentAt builtRootBlock i).inode_no ≠ 0
        match i, hi with
        | 0, _ => decide
        | 1, _ => decide)
  refine ⟨out, hok, ?_, ?_, ?_, hmode, ?_, ?_, ?_, ?_, ?_, ?_, rfl⟩
  · intro j
    show bitGet (fun b => if b = 0 then 1 else 0) j = decide (j < 1)
    rw [bitGet_freshBitmap j]
  · exact hdb
  · have hm : content.length % 2 ^ 64 = content.length :=
      Nat.mod_eq_of_lt (by omega)
    rw [← hm]
    exact hszN
  · have hde2 : readDirentAt (out.data_region 0) 2 = newDirent 2 fname := hde
    rw [hde2, newDirent_inode_no]
    decide
  · have hde2 : readDirentAt (out.data_region 0) 2 = newDirent 2 fname := hde
    rw [hde2, newDirent_type]
  · have hde2 : readDirentAt (out.data_region 0) 2 = newDirent 2 fname := hde
    rw [hde2]
    exact newDirent_name 2 fname hfn
  · intro j
    show bitGet (fun b => if b = 0 then 1 else 0) j = decide (j < 1)
    rw [bitGet_freshBitmap j]
  · exact hib
  · rw [hlinks]
    show ((2 : Nat) + 1) % 2 ^ 16 = 2 + 1
    decide

/-- C3 witness: inserting the 1-byte file `[1]` named "a" into the concrete
180 KiB fresh image. -/
theorem insert_into_fresh_spec_witness :
    ∃ out, insertFile img180 [97] [1] 0 = .ok out ∧
      (∀ j, bitGet img180.data_bitmap j = decide (j < 1)) ∧
      (∀ j, bitGet out.data_bitmap j
        = decide (j < 1 + (([1] : List Nat).length + 4096 - 1) / 4096)) ∧
      (out.inode_table 1).size_bytes = ([1] : List Nat).length ∧
      (out.inode_table 1).mode = 0x8000 ∧
      (readDirentAt (out.data_region 0) 2).inode_no = 2 ∧
      (readDirentAt (out.data_region 0) 2).type = 1 ∧
      (readDirentAt (out.data_region 0) 2).name = padBytes 58 (([97] : List Nat).take 57) ∧
      (∀ j, bitGet img180.inode_bitmap j = decide (j < 1)) ∧
      (∀ j, bitGet out.inode_bitmap j = decide (j < 2)) ∧
      (out.inode_table 0).links = (img180.inode_table 0).links + 1 ∧
      (img180.inode_table 0).links = 2 :=
  insert_into_fresh_spec 180 128 0 0 img180 (by decide) (by decide) (by decide)
    (by decide) (by decide) rfl [97] [1] 0 (by decide) (by decide) (by decide)

/-- C8.  Whenever an insert invocation produces an output image, the output
superblock record — all 116 serialized bytes of it — is identical to the
input image's superblock; failing invocations produce no output at all, so
the insert operation never mutates any superblock field. -/
theorem insert_preserves_superblock (img : Image) (fname content : List Nat)
    (now : Nat) (out : Image) (h : insertFile img fname content now = .ok out) :
    out.sb = img.sb ∧ superblockBytes out.sb = superblockBytes img.sb := by
  obtain ⟨fi, dbm, blocks, fe, t2, _, _, _, hout⟩ :=
    insertFile_ok_cases img fname content now out h
  subst hout
  exact ⟨insertOut_sb img fname content now fi dbm blocks fe t2, by
    rw [insertOut_sb img fname content now fi dbm blocks fe t2]⟩

/-- C8 witness: a concrete successful insert into the 180 KiB fresh image,
whose output superblock equals the input's. -/
theorem insert_preserves_superblock_witness :
    insertFile img180 [97] [1] 0 = Except.ok out180 ∧ out180.sb = img180.sb :=
  ⟨rfl, (insert_preserves_superblock img180 [97] [1] 0 out180 rfl).1⟩

/-- C9.  The new directory entry is placed at the first entry index
(scanning 0 up to the root inode's `size_bytes / 64`) whose inode number
is 0; only if no such entry exists and the entry count is below 64 is a
new slot appended at index `entry_count`, with the root inode's
`size_bytes` increased by 64 and its checksum re-finalized; with the
directory already at 64 entries the insert fails with the
root-directory-full error. -/
theorem root_entry_placement_spec (img : Image) (fname content : List Nat)
    (now fi : Nat) (dbm : Nat → Nat) (blocks : List Nat)
    (hbit0 : bitGet img.inode_bitmap 0 = true)
    (hmagic : img.sb.magic = 0x4D565346)
    (hfi : find_free_inode img.inode_bitmap img.sb.inode_count = some fi)
    (hneed : (content.length + 4096 - 1) / 4096 ≤ 12)
    (halloc : allocDataBlocks ((content.length + 4096 - 1) / 4096) img.data_bitmap
      img.sb.data_region_blocks img.sb.data_region_start = some (dbm, blocks))
    (hsz : content.length ≠ 0) :
    (∀ e, rootScan img content now fi blocks = some e ↔
      (e < rootEntryCount img content now fi blocks ∧
       (readDirentAt (rootBlockAfterCopy img content now fi blocks) e).inode_no = 0 ∧
       ∀ j, j < e →
         (readDirentAt (rootBlockAfterCopy img content now fi blocks) j).inode_no ≠ 0)) ∧
    (rootScan img content now fi blocks = none ↔
      ∀ j, j < rootEntryCount img content now fi blocks →
        (readDirentAt (rootBlockAfterCopy img content now fi blocks) j).inode_no ≠ 0) ∧
    (∀ e, rootScan img content now fi blocks = some e →
      ∃ out, insertFile img fname content now = .ok out ∧
        out.data_region (rootRelBlock img content now fi blocks)
          = writeDirentAt (rootBlockAfterCopy img content now fi blocks) e
              (newDirent fi fname) ∧
        (out.inode_table 0).size_bytes = (img.inode_table 0).size_bytes) ∧
    (rootScan img content now fi blocks = none →
      rootEntryCount img content now fi blocks < 64 →
      ∃ out, insertFile img fname content now = .ok out ∧
        out.data_region (rootRelBlock img content now fi blocks)
          = writeDirentAt (rootBlockAfterCopy img content now fi blocks)
              (rootEntryCount img content now fi blocks) (newDirent fi fname) ∧
        (out.inode_table 0).size_bytes
          = ((img.inode_table 0).size_bytes + 64) % 2 ^ 64 ∧
        (out.inode_table 0).inode_crc
          = crc32 ((inodeBytes (out.inode_table 0)).take 120)) ∧
    (rootScan img content now fi blocks = none →
      64 ≤ rootEntryCount img content now fi blocks →
      insertFile img fname content now = .error .rootDirFull) := by
  have hfi2 : 2 ≤ fi := find_free_inode_ge_two _ _ _ hbit0 hfi
  have hroot : rootAfterNew img content now fi blocks = img.inode_table 0 := by
    unfold rootAfterNew
    exact tableWithNew_ne img content now fi blocks 0 (by omega)
  have hcore : insertFile img fname content now
      = insertCore img fname content now fi dbm blocks :=
    insertFile_eq_core img fname content now fi dbm blocks hmagic hfi hneed halloc hsz
  refine ⟨?_, ?_, ?_, ?_, ?_⟩
  · intro e
    unfold rootScan
    rw [findFirst_eq_some_iff]
    constructor
    · rintro ⟨_, h2, h3, h4⟩
      simp only [beq_iff_eq] at h3
      refine ⟨by omega, h3, ?_⟩
      intro j hj
      have := h4 j (by omega) hj
      simp only [beq_eq_false_iff_ne, ne_eq] at this
      exact this
    · rintro ⟨h1, h2, h3⟩
      refine ⟨by omega, by omega, by simp only [beq_iff_eq]; exact h2, ?_⟩
      intro k _ hk
      simp only [beq_eq_false_iff_ne, ne_eq]
      exact h3 k hk
  · unfold rootScan
    rw [findFirst_eq_none_iff]
    constructor
    · intro h j hj
      have := h j (by omega) (by omega)
      simp only [beq_eq_false_iff_ne, ne_eq] at this
      exact this
    · intro h k _ hk
      simp only [beq_eq_false_iff_ne, ne_eq]
      exact h k (by omega)
  · intro e hscan
    have hok := hcore.trans
      (insertCore_scan_some img fname content now fi dbm blocks e hscan)
    refine ⟨_, hok, insertOut_data_region_root img fname content now fi dbm blocks e _, ?_⟩
    rw [insertOut_inode_table_zero]
    show (tableWithNew img content now fi blocks 0).size_bytes
      = (img.inode_table 0).size_bytes
    rw [tableWithNew_ne img content now fi blocks 0 (by omega)]
  · intro hscan hec
    have hok := hcore.trans
      (insertCore_scan_none_append img fname content now fi dbm blocks hscan hec)
    refine ⟨_, hok,
      insertOut_data_region_root img fname content now fi dbm blocks _ _, ?_, ?_⟩
    · rw [insertOut_inode_table_zero]
      show (grownTable img content now fi blocks 0).size_bytes
        = ((img.inode_table 0).size_bytes + 64) % 2 ^ 64
      rw [grownTable_zero, inode_crc_finalize_size]
      show ((rootAfterNew img content now fi blocks).size_bytes + 64) % 2 ^ 64
        = ((img.inode_table 0).size_bytes + 64) % 2 ^ 64
      rw [hroot]
    · rw [insertOut_inode_table_zero]
      exact inode_crc_finalize_valid _
  · intro hscan hec
    exact hcore.trans
      (insertCore_scan_none_full img fname content now fi dbm blocks hscan hec)

/-- C9 witness: inserting a 1-byte file into the concrete 180 KiB fresh
image takes the append branch: the scan finds no free slot among the two
in-use entries, and the new entry lands at index `entry_count = 2` while
the root inode's size grows by 64 with a valid re-finalized checksum. -/
theorem root_entry_placement_spec_witness :
    rootScan img180 [1] 0 2 [8] = none ∧
    rootEntryCount img180 [1] 0 2 [8] < 64 ∧
    ∃ out, insertFile img180 [97] [1] 0 = .ok out ∧
      out.data_region (rootRelBlock img180 [1] 0 2 [8])
        = writeDirentAt (rootBlockAfterCopy img180 [1] 0 2 [8])
            (rootEntryCount img180 [1] 0 2 [8]) (newDirent 2 [97]) ∧
      (out.inode_table 0).size_bytes
        = ((img180.inode_table 0).size_bytes + 64) % 2 ^ 64 ∧
      (out.inode_table 0).inode_crc
        = crc32 ((inodeBytes (out.inode_table 0)).take 120) := by
  have h := root_entry_placement_spec img180 [97] [1] 0 2
    (setBit img180.data_bitmap 1) [8] rfl rfl rfl (by decide) rfl (by decide)
  exact ⟨rfl, by decide, h.2.2.2.1 rfl (by decide)⟩

/-- C10.  A successful insert changes, in the data region, only the blocks
newly allocated for the file and the root directory's block, and in the
inode table, only the root's slot and the new inode's slot: every other
data-region block and table slot is byte-for-byte the input's. -/
theorem insert_frame_spec (img : Image) (fname content : List Nat) (now fi : Nat)
    (dbm : Nat → Nat) (blocks : List Nat) (out : Image)
    (hbit0 : bitGet img.inode_bitmap 0 = true)
    (hfi : find_free_inode img.inode_bitmap img.sb.inode_count = some fi)
    (halloc : allocDataBlocks ((content.length + 4096 - 1) / 4096) img.data_bitmap
      img.sb.data_region_blocks img.sb.data_region_start = some (dbm, blocks))
    (hok : insertFile img fname content now = .ok out) :
    (∀ b, (∀ k, k < blocks.length → blocks.getD k 0 - img.sb.data_region_start ≠ b) →
      b ≠ (img.inode_table 0).direct 0 - img.sb.data_region_start →
      ∀ off, out.data_region b off = img.data_region b off) ∧
    (∀ i, i ≠ 0 → i ≠ fi - 1 → out.inode_table i = img.inode_table i) := by
  obtain ⟨fi2, dbm2, blocks2, fe, t2, hfi2, halloc2, ht2, hout⟩ :=
    insertFile_ok_cases img fname content now out hok
  have hfieq : fi = fi2 := Option.some.inj (hfi.symm.trans hfi2)
  subst hfieq
  have hpair : (dbm, blocks) = (dbm2, blocks2) :=
    Option.some.inj (halloc.symm.trans halloc2)
  have hd2 : dbm = dbm2 := congrArg Prod.fst hpair
  have hb2 : blocks = blocks2 := congrArg Prod.snd hpair
  subst hd2
  subst hb2
  subst hout
  have hge2 : 2 ≤ fi := find_free_inode_ge_two _ _ _ hbit0 hfi
  have hroot : rootAfterNew img content now fi blocks = img.inode_table 0 := by
    unfold rootAfterNew
    exact tableWithNew_ne img content now fi blocks 0 (by omega)
  constructor
  · intro b hbb hbroot off
    have hbr : b ≠ rootRelBlock img content now fi blocks := by
      unfold rootRelBlock
      rw [hroot]
      exact hbroot
    rw [insertOut_data_region_ne img fname content now fi dbm blocks fe t2 b hbr]
    unfold regionAfterCopy
    exact writeContent_ne img.data_region blocks content content.length
      img.sb.data_region_start b off hbb
  · intro i hi0 hifi
    rw [insertOut_inode_table_ne img fname content now fi dbm blocks fe t2 i hi0]
    rcases ht2 with h | h
    · rw [h]
      exact tableWithNew_ne img content now fi blocks i hifi
    · rw [h]
      exact grownTable_ne img content now fi blocks i hi0 hifi

/-- C10 witness: for the concrete insert into the 180 KiB image (new data
block 8, root block 0, new inode slot 1), data block 5 and inode slot 3 are
untouched. -/
theorem insert_frame_spec_witness :
    insertFile img180 [97] [1] 0 = Except.ok out180 ∧
    out180.data_region 5 0 = img180.data_region 5 0 ∧
    out180.inode_table 3 = img180.inode_table 3 := by
  have h := insert_frame_spec img180 [97] [1] 0 2 (setBit img180.data_bitmap 1)
    [8] out180 rfl rfl rfl rfl
  exact ⟨rfl, h.1 5 (by decide) (by decide) 0, h.2 3 (by decide) (by decide)⟩

end Mkfs
